import Mathlib

/-!
# CHIP-8 interpreter (`main.c`): shallow embedding and verified properties

The machine state `chip8_t` and the functions `fetch_instruction`,
`execute_instruction`, `update_timers`, `initialize_chip8`, `handle_input` and
the game loop of `main` of `main.c` are embedded as Lean functions.

* C arrays are functions on `Nat`; an access whose index can leave the array
  (`ram`, `stack`, `keypad`) is bounds-checked and the step returns `none`
  (undefined behaviour in C) when the index is out of range.  Register
  indices are 4-bit opcode fields or loop counters bounded by them, and
  display indices are `y_coord * 64 + x_coord` under the loop guards, so those
  accesses carry no check.
* `uint8_t` / `uint16_t` values are `Nat` with explicit `% 256` / `% 65536`
  at every assignment that can wrap; `int stack_size` is an `Int`.
* The two `static` locals of the `FX0A` case are fields of the state.
* `rand()` is an argument of the step (`rnd`).
* The ROM file and the SDL events are inputs: `fopen`, `ftell` and `fread` are
  read off a `rom_file`, `SDL_PollEvent` off a list of events per frame.
-/

namespace Chip8

/-! ## Data model -/

abbrev SCREEN_WIDTH : Nat := 64
abbrev SCREEN_HEIGHT : Nat := 32

/-- Current state of the emulator object. -/
inductive emu_state where
  | QUIT
  | RUNNING
  | PAUSED
  deriving DecidableEq

/-- The CHIP-8 object, with the two `static` locals of the `FX0A` case
(`key_press`, `key`) made explicit. -/
structure chip8_t where
  ram : Nat → Nat
  display : Nat → Bool
  stack : Nat → Nat
  stack_size : Int
  V : Nat → Nat
  I : Nat
  delay_timer : Nat
  sound_timer : Nat
  PC : Nat
  keypad : Nat → Bool
  state : emu_state
  volume : Nat
  key_press : Bool
  key : Nat

/-- Array store `a[i] = v`. -/
def store {α : Type} (a : Nat → α) (i : Nat) (v : α) : Nat → α :=
  fun j => if j = i then v else a j

/-- Conversion of a C `int` value to `uint8_t`. -/
def to_u8 (z : Int) : Nat := (z % 256).toNat

/-- Conversion of a C `int` value to `uint16_t`. -/
def to_u16 (z : Int) : Nat := (z % 65536).toNat

/-- Conversion of a C `bool` to `uint8_t`. -/
def bool_u8 (b : Bool) : Nat := if b then 1 else 0

/-! ## Fetch -/

/-- The 16-bit word `(ram[a] << 8) | ram[a + 1]`. -/
def instr_at (ram : Nat → Nat) (a : Nat) : Nat :=
  ((ram a <<< 8) ||| ram (a + 1)) % 65536

/-- `fetch_instruction`: returns the instruction at `PC` and increments `PC` by 2. -/
def fetch_instruction (chip8 : chip8_t) : Option (Nat × chip8_t) :=
  if chip8.PC + 1 < 4096 then
    let instr := instr_at chip8.ram chip8.PC
    some (instr, { chip8 with PC := (chip8.PC + 2) % 65536 })
  else none

/-! ## Loops of `execute_instruction` -/

/-- Inner loop of `DXYN`, `for (k = m - 1; k >= 0; k--)`: draws the bits
`m - 1, ..., 0` of `sprite_data` starting at column `x_coord` of row `y_coord`,
leaving the loop when the column reaches `SCREEN_WIDTH`. -/
def draw_bits (sprite_data y_coord : Nat) : Nat → Nat → chip8_t → chip8_t
  | 0, _, c => c
  | k + 1, x_coord, c =>
    let pixel := c.display (y_coord * SCREEN_WIDTH + x_coord)
    let sprite_bit := (sprite_data &&& (1 <<< k)) != 0
    let c1 := if sprite_bit && pixel then { c with V := store c.V 0xF 1 } else c
    let c2 := { c1 with
      display := store c1.display (y_coord * SCREEN_WIDTH + x_coord) (xor pixel sprite_bit) }
    if x_coord + 1 ≥ SCREEN_WIDTH then c2
    else draw_bits sprite_data y_coord k (x_coord + 1) c2

/-- Outer loop of `DXYN`, `for (j = ...; j < N; j++)` with `n = N - j` rows
left, leaving the loop when the row reaches `SCREEN_HEIGHT`. -/
def draw_rows (orig_x_coord : Nat) : Nat → Nat → Nat → chip8_t → Option chip8_t
  | 0, _, _, c => some c
  | n + 1, j, y_coord, c =>
    if c.I + j < 4096 then
      let sprite_data := c.ram (c.I + j)
      let c1 := draw_bits sprite_data y_coord 8 orig_x_coord c
      if y_coord + 1 ≥ SCREEN_HEIGHT then some c1
      else draw_rows orig_x_coord n (j + 1) (y_coord + 1) c1
    else none

/-- Key scan of `FX0A`, `for (i = ...; key == 0xFF && i < 16; i++)` with
`n = 16 - i` keys left. -/
def scan_keypad : Nat → Nat → chip8_t → chip8_t
  | 0, _, c => c
  | n + 1, i, c =>
    if c.key = 0xFF then
      if c.keypad i then { c with key := i, key_press := true }
      else scan_keypad n (i + 1) c
    else c

/-- Loop of `FX55`, `for (i = ...; i <= X; i++) ram[I + i] = V[hex++]` with
`n = X + 1 - i` iterations left. -/
def store_registers : Nat → Nat → Nat → chip8_t → Option chip8_t
  | 0, _, _, c => some c
  | n + 1, i, hex, c =>
    if c.I + i < 4096 then
      store_registers n (i + 1) (hex + 1) { c with ram := store c.ram (c.I + i) (c.V hex) }
    else none

/-- Loop of `FX65`, `for (i = ...; i <= X; i++) V[hex++] = ram[I + i]` with
`n = X + 1 - i` iterations left. -/
def load_registers : Nat → Nat → Nat → chip8_t → Option chip8_t
  | 0, _, _, c => some c
  | n + 1, i, hex, c =>
    if c.I + i < 4096 then
      load_registers n (i + 1) (hex + 1) { c with V := store c.V hex (c.ram (c.I + i)) }
    else none

/-! ## Decode and dispatch -/

/-- The `switch (opcode >> 12)` of `execute_instruction`, applied to the state
left by the fetch. -/
def execute_opcode (rnd : Nat) (opcode : Nat) (chip8 : chip8_t) : Option chip8_t :=
  let NNN := opcode &&& 0x0FFF
  let NN := opcode &&& 0x00FF
  let N := opcode &&& 0x000F
  let X := (opcode >>> 8) &&& 0x000F
  let Y := (opcode >>> 4) &&& 0x000F
  let op := opcode >>> 12
  if op = 0x0 then
    if NN = 0xE0 then
      some { chip8 with display := fun _ => false }
    else if NN = 0xEE then
      if 0 ≤ chip8.stack_size - 1 ∧ chip8.stack_size - 1 < 16 then
        some { chip8 with
          PC := chip8.stack (chip8.stack_size - 1).toNat
          stack_size := chip8.stack_size - 1 }
      else none
    else some chip8
  else if op = 0x1 then
    some { chip8 with PC := NNN }
  else if op = 0x2 then
    if 0 ≤ chip8.stack_size ∧ chip8.stack_size < 16 then
      some { chip8 with
        stack := store chip8.stack chip8.stack_size.toNat chip8.PC
        stack_size := chip8.stack_size + 1
        PC := NNN }
    else none
  else if op = 0x3 then
    if chip8.V X = NN then some { chip8 with PC := (chip8.PC + 2) % 65536 } else some chip8
  else if op = 0x4 then
    if chip8.V X ≠ NN then some { chip8 with PC := (chip8.PC + 2) % 65536 } else some chip8
  else if op = 0x5 then
    if chip8.V X = chip8.V Y then some { chip8 with PC := (chip8.PC + 2) % 65536 }
    else some chip8
  else if op = 0x6 then
    some { chip8 with V := store chip8.V X NN }
  else if op = 0x7 then
    some { chip8 with V := store chip8.V X ((chip8.V X + NN) % 256) }
  else if op = 0x8 then
    if N = 0x0 then
      some { chip8 with V := store chip8.V X (chip8.V Y) }
    else if N = 0x1 then
      some { chip8 with V := store chip8.V X (chip8.V X ||| chip8.V Y) }
    else if N = 0x2 then
      some { chip8 with V := store chip8.V X (chip8.V X &&& chip8.V Y) }
    else if N = 0x3 then
      some { chip8 with V := store chip8.V X (chip8.V X ^^^ chip8.V Y) }
    else if N = 0x4 then
      let carry : Bool := decide ((chip8.V X + chip8.V Y) % 65536 > 255)
      let c1 := { chip8 with V := store chip8.V X ((chip8.V X + chip8.V Y) % 256) }
      some { c1 with V := store c1.V 0xF (bool_u8 carry) }
    else if N = 0x5 then
      let carry : Bool := decide (chip8.V X ≥ chip8.V Y)
      let c1 := { chip8 with V := store chip8.V X (to_u8 ((chip8.V X : Int) - chip8.V Y)) }
      some { c1 with V := store c1.V 0xF (bool_u8 carry) }
    else if N = 0x6 then
      let shifted_bit : Bool := (chip8.V X &&& 1) != 0
      let c1 := { chip8 with V := store chip8.V X (chip8.V X >>> 1) }
      some { c1 with V := store c1.V 0xF (bool_u8 shifted_bit) }
    else if N = 0x7 then
      let no_underflow : Bool := decide (chip8.V Y ≥ chip8.V X)
      let c1 := { chip8 with V := store chip8.V X (to_u8 ((chip8.V Y : Int) - chip8.V X)) }
      some { c1 with V := store c1.V 0xF (bool_u8 no_underflow) }
    else if N = 0xE then
      let MSB : Bool := (chip8.V X &&& 0x80) == 0x80
      let c1 := { chip8 with V := store chip8.V X ((chip8.V X <<< 1) % 256) }
      some { c1 with V := store c1.V 0xF (bool_u8 MSB) }
    else some chip8
  else if op = 0x9 then
    if chip8.V X ≠ chip8.V Y then some { chip8 with PC := (chip8.PC + 2) % 65536 }
    else some chip8
  else if op = 0xA then
    some { chip8 with I := NNN }
  else if op = 0xB then
    some { chip8 with PC := (chip8.V 0 + NNN) % 65536 }
  else if op = 0xC then
    some { chip8 with V := store chip8.V X ((rnd % 256) &&& NN) }
  else if op = 0xD then
    let x_coord := chip8.V X % SCREEN_WIDTH
    let y_coord := chip8.V Y % SCREEN_HEIGHT
    let orig_x_coord := x_coord
    let c1 := { chip8 with V := store chip8.V 0xF 0 }
    draw_rows orig_x_coord N 0 y_coord c1
  else if op = 0xE then
    if NN = 0x9E then
      if chip8.V X < 16 then
        if chip8.keypad (chip8.V X) then some { chip8 with PC := (chip8.PC + 2) % 65536 }
        else some chip8
      else none
    else if NN = 0xA1 then
      if chip8.V X < 16 then
        if !chip8.keypad (chip8.V X) then some { chip8 with PC := (chip8.PC + 2) % 65536 }
        else some chip8
      else none
    else some chip8
  else if op = 0xF then
    if NN = 0x07 then
      some { chip8 with V := store chip8.V X chip8.delay_timer }
    else if NN = 0x0A then
      let c1 := scan_keypad 16 0 chip8
      if !c1.key_press then
        some { c1 with PC := to_u16 ((c1.PC : Int) - 2) }
      else if c1.key < 16 then
        if c1.keypad c1.key then
          some { c1 with PC := to_u16 ((c1.PC : Int) - 2) }
        else
          some { c1 with V := store c1.V X c1.key, key := 0xFF, key_press := false }
      else none
    else if NN = 0x15 then
      some { chip8 with delay_timer := chip8.V X }
    else if NN = 0x18 then
      some { chip8 with sound_timer := chip8.V X }
    else if NN = 0x1E then
      some { chip8 with I := (chip8.I + chip8.V X) % 65536 }
    else if NN = 0x29 then
      some { chip8 with I := (chip8.V X * 5) % 65536 }
    else if NN = 0x33 then
      if chip8.I + 2 < 4096 then
        let num := chip8.V X
        let c1 := { chip8 with ram := store chip8.ram (chip8.I + 2) (num % 10) }
        let num := num / 10
        let c2 := { c1 with ram := store c1.ram (c1.I + 1) (num % 10) }
        let num := num / 10
        some { c2 with ram := store c2.ram c2.I (num % 10) }
      else none
    else if NN = 0x55 then
      store_registers (X + 1) 0 0 chip8
    else if NN = 0x65 then
      load_registers (X + 1) 0 0 chip8
    else some chip8
  else some chip8

/-- `execute_instruction`: emulates the execution of one opcode.  `rnd` is the
value returned by `rand()` should the opcode call it. -/
def execute_instruction (rnd : Nat) (chip8 : chip8_t) : Option chip8_t :=
  match fetch_instruction chip8 with
  | none => none
  | some (opcode, c) => execute_opcode rnd opcode c

/-! ## Timers and driver loops -/

/-- `update_timers`: decrements each timer that is above `0`.  The second
component is the `pause_on` argument of the call of `SDL_PauseAudioDevice`
made by the tick (`false` plays the audio, `true` pauses it). -/
def update_timers (chip8 : chip8_t) : chip8_t × Bool :=
  let c1 :=
    if chip8.delay_timer > 0 then { chip8 with delay_timer := chip8.delay_timer - 1 }
    else chip8
  if c1.sound_timer > 0 then ({ c1 with sound_timer := c1.sound_timer - 1 }, false)
  else (c1, true)

/-- The machine state after `n` calls of `update_timers`. -/
def update_timers_n : Nat → chip8_t → chip8_t
  | 0, c => c
  | n + 1, c => update_timers_n n (update_timers c).1

/-- The instruction loop of `main`, `for (i = ...; i < n; i++) execute_instruction(&chip8)`
with `n` calls left; `rnd n` is what `rand()` returns in the call with `n + 1`
calls left. -/
def run_instructions (rnd : Nat → Nat) : Nat → chip8_t → Option chip8_t
  | 0, c => some c
  | n + 1, c =>
    match execute_instruction (rnd n) c with
    | none => none
    | some c1 => run_instructions rnd n c1

/-- Executor cycles between which the input collaborator rewrites the keypad
lines: before each call of `execute_instruction` the keypad is set to the next
element of the list. -/
def run_cycles (rnd : Nat) : List (Nat → Bool) → chip8_t → Option chip8_t
  | [], c => some c
  | kp :: rest, c =>
    match execute_instruction rnd { c with keypad := kp } with
    | none => none
    | some c1 => run_cycles rnd rest c1

/-! ## Initialization -/

/-- The `font` table of `initialize_chip8` (16 glyphs of 5 bytes). -/
def font : List Nat :=
  [0xF0, 0x90, 0x90, 0x90, 0xF0,
   0x20, 0x60, 0x20, 0x20, 0x70,
   0xF0, 0x10, 0xF0, 0x80, 0xF0,
   0xF0, 0x10, 0xF0, 0x10, 0xF0,
   0x90, 0x90, 0xF0, 0x10, 0x10,
   0xF0, 0x80, 0xF0, 0x10, 0xF0,
   0xF0, 0x80, 0xF0, 0x90, 0xF0,
   0xF0, 0x10, 0x20, 0x40, 0x40,
   0xF0, 0x90, 0xF0, 0x90, 0xF0,
   0xF0, 0x90, 0xF0, 0x10, 0xF0,
   0xF0, 0x90, 0xF0, 0x90, 0x90,
   0xE0, 0x90, 0xE0, 0x90, 0xE0,
   0xF0, 0x80, 0x80, 0x80, 0xF0,
   0xE0, 0x90, 0x90, 0x90, 0xE0,
   0xF0, 0x80, 0xF0, 0x80, 0xF0,
   0xF0, 0x80, 0xF0, 0x80, 0x80]

/-- Copy of the bytes `src` into `ram` from address `dst` on (`memcpy`, `fread`). -/
def copy_bytes (ram : Nat → Nat) (dst : Nat) (src : List Nat) : Nat → Nat :=
  fun a => if dst ≤ a ∧ a < dst + src.length then src.getD (a - dst) 0 else ram a

/-- An opened ROM file: `rom_size` is the length reported by `ftell` and
`contents` the bytes that `fread` delivers. -/
structure rom_file where
  rom_size : Nat
  contents : List Nat

/-- `initialize_chip8`: the argument `rom` is `none` when `fopen` fails.  The
first component is the returned `bool`, the second the machine state left
behind. -/
def initialize_chip8 (chip8 : chip8_t) (rom : Option rom_file) : Bool × chip8_t :=
  let entry := 0x200
  let c1 := { chip8 with
    state := emu_state.RUNNING
    volume := 1500
    PC := entry
    ram := copy_bytes chip8.ram 0 font }
  match rom with
  | none => (false, c1)
  | some f =>
    let max_size := 4096 - entry
    if f.rom_size > max_size then (false, c1)
    else
      let read := f.contents.take f.rom_size
      let c2 := { c1 with ram := copy_bytes c1.ram entry read }
      if read.length ≠ f.rom_size then (false, c2)
      else (true, c2)

/-! ## Input and the game loop of `main` -/

/-- The key symbols that `handle_input` distinguishes. -/
inductive SDL_Keycode where
  | SDLK_ESCAPE
  | SDLK_SPACE
  | SDLK_MINUS
  | SDLK_EQUALS
  | SDLK_1
  | SDLK_2
  | SDLK_3
  | SDLK_4
  | SDLK_q
  | SDLK_w
  | SDLK_e
  | SDLK_r
  | SDLK_a
  | SDLK_s
  | SDLK_d
  | SDLK_f
  | SDLK_z
  | SDLK_x
  | SDLK_c
  | SDLK_v
  | SDLK_UNKNOWN
  deriving DecidableEq

/-- The events that `handle_input` distinguishes. -/
inductive SDL_Event where
  | SDL_QUIT
  | SDL_KEYDOWN (sym : SDL_Keycode)
  | SDL_KEYUP (sym : SDL_Keycode)
  | SDL_FIRSTEVENT

/-- The keypad line of a key symbol (the same table in both `switch`
statements of `handle_input`). -/
def keypad_line : SDL_Keycode → Option Nat
  | .SDLK_1 => some 0x1
  | .SDLK_2 => some 0x2
  | .SDLK_3 => some 0x3
  | .SDLK_4 => some 0xC
  | .SDLK_q => some 0x4
  | .SDLK_w => some 0x5
  | .SDLK_e => some 0x6
  | .SDLK_r => some 0xD
  | .SDLK_a => some 0x7
  | .SDLK_s => some 0x8
  | .SDLK_d => some 0x9
  | .SDLK_f => some 0xE
  | .SDLK_z => some 0xA
  | .SDLK_x => some 0x0
  | .SDLK_c => some 0xB
  | .SDLK_v => some 0xF
  | _ => none

/-- The body of the event loop of `handle_input` for one polled event. -/
def handle_event (chip8 : chip8_t) : SDL_Event → chip8_t
  | .SDL_QUIT => { chip8 with state := emu_state.QUIT }
  | .SDL_KEYDOWN sym =>
    match sym with
    | .SDLK_ESCAPE => { chip8 with state := emu_state.QUIT }
    | .SDLK_SPACE =>
      if chip8.state = emu_state.RUNNING then { chip8 with state := emu_state.PAUSED }
      else { chip8 with state := emu_state.RUNNING }
    | .SDLK_MINUS =>
      if chip8.volume > 0 then
        { chip8 with volume := (((chip8.volume : Int) - 100) % 4294967296).toNat }
      else chip8
    | .SDLK_EQUALS =>
      if chip8.volume < 3000 then { chip8 with volume := (chip8.volume + 100) % 4294967296 }
      else chip8
    | sym =>
      match keypad_line sym with
      | some i => { chip8 with keypad := store chip8.keypad i true }
      | none => chip8
  | .SDL_KEYUP sym =>
    match keypad_line sym with
    | some i => { chip8 with keypad := store chip8.keypad i false }
    | none => chip8
  | .SDL_FIRSTEVENT => chip8

/-- `handle_input`: handles every event that `SDL_PollEvent` delivers. -/
def handle_input (events : List SDL_Event) (chip8 : chip8_t) : chip8_t :=
  events.foldl handle_event chip8

/-- The game loop of `main`, `while (chip8.state != QUIT)`, over the frames
the environment supplies: each frame gives the events pending at
`handle_input` and the values of `rand()`.  The `Bool` is the paused state of
the audio device. -/
def game_loop : List (List SDL_Event × (Nat → Nat)) → chip8_t × Bool → Option (chip8_t × Bool)
  | [], s => some s
  | (events, rnd) :: rest, (chip8, dev) =>
    if chip8.state = emu_state.QUIT then some (chip8, dev)
    else
      let c1 := handle_input events chip8
      if c1.state = emu_state.PAUSED then game_loop rest (c1, dev)
      else
        match run_instructions rnd (500 / 60) c1 with
        | none => none
        | some c2 => game_loop rest (update_timers c2)

/-- The object `chip8_t chip8 = {0}` of `main` (with the `static` locals of
`FX0A` at their initializers). -/
def chip8_zero : chip8_t where
  ram := fun _ => 0
  display := fun _ => false
  stack := fun _ => 0
  stack_size := 0
  V := fun _ => 0
  I := 0
  delay_timer := 0
  sound_timer := 0
  PC := 0
  keypad := fun _ => false
  state := emu_state.QUIT
  volume := 0
  key_press := false
  key := 0xFF

/-- `main` after the argument check and a successful `initialize_SDL` (the
audio device is opened paused): the value returned by `initialize_chip8` is
not used. -/
def main (rom : Option rom_file) (frames : List (List SDL_Event × (Nat → Nat))) :
    Option (chip8_t × Bool) :=
  let r := initialize_chip8 chip8_zero rom
  game_loop frames (r.2, true)

/-! ## The `DEBUG` build -/

/-- `print_debugging` (compiled with `DEBUG`): what the call does to the machine
state.  The case `00EE` prints `stack[stack_size - 1]`; the case `8XY7` passes
`chip8->V[X] = chip8->V[Y]` as an argument of `printf`; every other case only
prints registers, timers, `I` and opcode fields. -/
def print_debugging (opcode : Nat) (chip8 : chip8_t) : Option chip8_t :=
  let NN := opcode &&& 0x00FF
  let N := opcode &&& 0x000F
  let X := (opcode >>> 8) &&& 0x000F
  let Y := (opcode >>> 4) &&& 0x000F
  let op := opcode >>> 12
  if op = 0x0 then
    if NN = 0xE0 then some chip8
    else if NN = 0xEE then
      if 0 ≤ chip8.stack_size - 1 ∧ chip8.stack_size - 1 < 16 then some chip8 else none
    else some chip8
  else if op = 0x8 then
    if N = 0x7 then some { chip8 with V := store chip8.V X (chip8.V Y) }
    else some chip8
  else some chip8

/-- `execute_instruction` compiled with `DEBUG`: `print_debugging` is called
between the fetch and the dispatch. -/
def execute_instruction_debug (rnd : Nat) (chip8 : chip8_t) : Option chip8_t :=
  match fetch_instruction chip8 with
  | none => none
  | some (opcode, c) =>
    match print_debugging opcode c with
    | none => none
    | some c1 => execute_opcode rnd opcode c1

/-! ## Vocabulary of the statements -/

/-- The instruction word at `PC` is `opcode` (both of its bytes lie in `ram`). -/
def at_pc (c : chip8_t) (opcode : Nat) : Prop :=
  c.PC + 1 < 4096 ∧ instr_at c.ram c.PC = opcode

instance (c : chip8_t) (opcode : Nat) : Decidable (at_pc c opcode) := by
  unfold at_pc; infer_instance

/-- A zeroed machine whose `ram` holds the instruction word `opcode` at
`0x200`, `PC = 0x200`, and whose registers are `V`. -/
def machine (opcode : Nat) (V : Nat → Nat) : chip8_t where
  ram := fun a => if a = 0x200 then opcode / 256 else if a = 0x201 then opcode % 256 else 0
  display := fun _ => false
  stack := fun _ => 0
  stack_size := 0
  V := V
  I := 0
  delay_timer := 0
  sound_timer := 0
  PC := 0x200
  keypad := fun _ => false
  state := emu_state.RUNNING
  volume := 1500
  key_press := false
  key := 0xFF

/-- Registers `VF = 5`, `V0 = 3`, all others `0`. -/
def regs_f5 : Nat → Nat := fun i => if i = 15 then 5 else if i = 0 then 3 else 0

/-- Registers `V1 = 200`, `V2 = 100`, all others `0`. -/
def regs_12 : Nat → Nat := fun i => if i = 1 then 200 else if i = 2 then 100 else 0

/-- A machine about to run `D012` twice (at `0x200` and `0x202`) with
`V0 = 62`, `V1 = 31`, the sprite rows `0xFF`, `0x81` at `I = 0x300`, and the
single pixel `(62, 31)` lit. -/
def draw_machine : chip8_t :=
  { machine 0xD012 (fun i => if i = 0 then 62 else if i = 1 then 31 else 0) with
    ram := fun a =>
      if a = 0x200 then 0xD0 else if a = 0x201 then 0x12
      else if a = 0x202 then 0xD0 else if a = 0x203 then 0x12
      else if a = 0x300 then 0xFF else if a = 0x301 then 0x81 else 0
    I := 0x300
    display := fun p => decide (p = 31 * 64 + 62) }

/-- The state left by the first draw of `draw_machine`. -/
def draw_machine_1 : chip8_t :=
  (execute_instruction 0 draw_machine).getD draw_machine

/-- A machine about to run `2300` at `0x200`, with `00EE` stored at `0x300`
and an empty call stack. -/
def call_machine : chip8_t :=
  { machine 0x2300 (fun _ => 0) with
    ram := fun a =>
      if a = 0x200 then 0x23 else if a = 0x201 then 0x00
      else if a = 0x300 then 0x00 else if a = 0x301 then 0xEE else 0 }

/-- A machine about to run `F133` with `V1 = 157` and `I = 0x300`. -/
def bcd_machine : chip8_t :=
  { machine 0xF133 (fun i => if i = 1 then 157 else 0) with I := 0x300 }

/-- A machine about to run `F355` (at `0x200`) and `F365` (at `0x202`) with
`Vi = 11 * (i + 1)` and `I = 0x300`. -/
def memory_machine : chip8_t :=
  { machine 0xF355 (fun i => if i < 16 then 11 * (i + 1) else 0) with
    ram := fun a =>
      if a = 0x200 then 0xF3 else if a = 0x201 then 0x55
      else if a = 0x202 then 0xF3 else if a = 0x203 then 0x65 else 0
    I := 0x300 }

/-- The state left by `F355` on `memory_machine`. -/
def memory_machine_1 : chip8_t :=
  (execute_instruction 0 memory_machine).getD memory_machine

/-- A machine about to run `F10A` whose keys `3` and `7` are pressed (idle latch). -/
def key_machine : chip8_t :=
  { machine 0xF10A (fun _ => 0) with keypad := fun i => decide (i = 3 ∨ i = 7) }

/-- A machine about to run `2300` with a full call stack (`stack_size = 16`). -/
def full_stack_machine : chip8_t :=
  { machine 0x2300 (fun _ => 0) with stack_size := 16 }

/-- A machine about to run `00EE` with an empty call stack (`stack_size = 0`). -/
def empty_stack_machine : chip8_t :=
  machine 0x00EE (fun _ => 0)

/-- A machine about to run `E09E` with `V0 = 16` and `stack_size = 1`. -/
def key_index_machine : chip8_t :=
  { machine 0xE09E (fun i => if i = 0 then 16 else 0) with stack_size := 1 }

/-- A machine about to run `F155` with `I = 0xFFF` and `stack_size = 1`. -/
def ram_end_machine : chip8_t :=
  { machine 0xF155 (fun _ => 0) with I := 0xFFF, stack_size := 1 }

/-- A machine about to run `01E0` with every pixel lit. -/
def lit_machine : chip8_t :=
  { machine 0x01E0 (fun _ => 0) with display := fun _ => true }

/-- The opcodes for which the dispatch of `execute_instruction` reaches a
`default` label: top nibble `0` with low byte other than `E0`, `EE`; top nibble
`8` with low nibble other than `0..7`, `E`; top nibble `E` with low byte other
than `9E`, `A1`; top nibble `F` with low byte other than `07`, `0A`, `15`,
`18`, `1E`, `29`, `33`, `55`, `65`. -/
def unhandled (opcode : Nat) : Prop :=
  (opcode >>> 12 = 0x0 ∧ opcode &&& 0xFF ≠ 0xE0 ∧ opcode &&& 0xFF ≠ 0xEE) ∨
  (opcode >>> 12 = 0x8 ∧ 7 < opcode &&& 0xF ∧ opcode &&& 0xF ≠ 0xE) ∨
  (opcode >>> 12 = 0xE ∧ opcode &&& 0xFF ≠ 0x9E ∧ opcode &&& 0xFF ≠ 0xA1) ∨
  (opcode >>> 12 = 0xF ∧ opcode &&& 0xFF ≠ 0x07 ∧ opcode &&& 0xFF ≠ 0x0A ∧
    opcode &&& 0xFF ≠ 0x15 ∧ opcode &&& 0xFF ≠ 0x18 ∧ opcode &&& 0xFF ≠ 0x1E ∧
    opcode &&& 0xFF ≠ 0x29 ∧ opcode &&& 0xFF ≠ 0x33 ∧ opcode &&& 0xFF ≠ 0x55 ∧
    opcode &&& 0xFF ≠ 0x65)

instance (opcode : Nat) : Decidable (unhandled opcode) := by
  unfold unhandled; infer_instance

/-- The bytes `ram[0x000..0x04F]` are the font table. -/
def holds_font (ram : Nat → Nat) : Prop :=
  ∀ a, a < 80 → ram a = font.getD a 0

instance (ram : Nat → Nat) : Decidable (holds_font ram) := by
  unfold holds_font; infer_instance

/-- A machine about to run `opcode` whose `ram` also holds the font table, with
index register `I`. -/
def font_machine (opcode I : Nat) : chip8_t :=
  { machine opcode (fun _ => 0) with
    ram := copy_bytes (machine opcode (fun _ => 0)).ram 0 font
    I := I }

/-- The state left by `F033` on `font_machine 0xF033 0x300`. -/
def font_machine_1 : chip8_t :=
  (execute_instruction 0 (font_machine 0xF033 0x300)).getD (font_machine 0xF033 0x300)

/-- Registers `V1 = 1`, `V2 = 3`, all others `0`. -/
def regs_13 : Nat → Nat := fun i => if i = 1 then 1 else if i = 2 then 3 else 0

/-- The machine left by a successful load of the two-byte ROM `F1 29`, with
`V1` then set to `0xA`. -/
def glyph_machine : chip8_t :=
  { (initialize_chip8 chip8_zero (some (rom_file.mk 2 [0xF1, 0x29]))).2 with
    V := fun i => if i = 1 then 0xA else 0 }

/-- A machine about to run `F255` with `Vi = 11 * (i + 1)` and `I = 0x300`. -/
def store_machine : chip8_t :=
  { machine 0xF255 (fun i => if i < 16 then 11 * (i + 1) else 0) with I := 0x300 }

/-! ## Decoding lemmas -/

theorem and_15 (n : Nat) : n &&& 15 = n % 16 :=
  Nat.and_pow_two_sub_one_eq_mod n 4

theorem and_255 (n : Nat) : n &&& 255 = n % 256 :=
  Nat.and_pow_two_sub_one_eq_mod n 8

theorem and_4095 (n : Nat) : n &&& 4095 = n % 4096 :=
  Nat.and_pow_two_sub_one_eq_mod n 12

/-- Fields of the opcode with nibbles `g`, `X`, `Y`, `N`. -/
theorem decode_xyn (g X Y N : Nat) (hX : X < 16) (hY : Y < 16) (hN : N < 16) :
    (g * 4096 + X * 256 + Y * 16 + N) >>> 12 = g ∧
    ((g * 4096 + X * 256 + Y * 16 + N) >>> 8) &&& 15 = X ∧
    ((g * 4096 + X * 256 + Y * 16 + N) >>> 4) &&& 15 = Y ∧
    (g * 4096 + X * 256 + Y * 16 + N) &&& 15 = N ∧
    (g * 4096 + X * 256 + Y * 16 + N) &&& 255 = Y * 16 + N ∧
    (g * 4096 + X * 256 + Y * 16 + N) &&& 4095 = X * 256 + Y * 16 + N := by
  simp only [and_15, and_255, and_4095, Nat.shiftRight_eq_div_pow]
  omega

/-- Fields of the opcode with top nibble `g`, register `X` and byte `NN`. -/
theorem decode_xnn (g X NN : Nat) (hX : X < 16) (hNN : NN < 256) :
    (g * 4096 + X * 256 + NN) >>> 12 = g ∧
    ((g * 4096 + X * 256 + NN) >>> 8) &&& 15 = X ∧
    (g * 4096 + X * 256 + NN) &&& 255 = NN := by
  simp only [and_15, and_255, Nat.shiftRight_eq_div_pow]
  omega

/-- Fields of the opcode with top nibble `g` and address `NNN`. -/
theorem decode_nnn (g NNN : Nat) (hNNN : NNN < 4096) :
    (g * 4096 + NNN) >>> 12 = g ∧ (g * 4096 + NNN) &&& 4095 = NNN := by
  simp only [and_4095, Nat.shiftRight_eq_div_pow]
  omega

/-- A step whose fetch is in range runs the dispatch on the fetched word. -/
theorem execute_instruction_eq (rnd : Nat) (c : chip8_t) (opcode : Nat)
    (h : at_pc c opcode) :
    execute_instruction rnd c =
      execute_opcode rnd opcode { c with PC := (c.PC + 2) % 65536 } := by
  obtain ⟨h1, h2⟩ := h
  simp [execute_instruction, fetch_instruction, h1, h2]

/-! ## Machine-integer lemmas -/

theorem store_same {α : Type} (a : Nat → α) (i : Nat) (v : α) : store a i v i = v := by
  simp [store]

theorem store_other {α : Type} (a : Nat → α) (i j : Nat) (v : α) (h : j ≠ i) :
    store a i v j = a j := by
  simp [store, h]

theorem to_u8_eq (z : Int) : ((to_u8 z : Nat) : Int) = z % 256 := by
  unfold to_u8
  exact Int.toNat_of_nonneg (Int.emod_nonneg _ (by norm_num))

theorem bool_u8_le_one (b : Bool) : bool_u8 b ≤ 1 := by
  cases b <;> simp [bool_u8]

theorem and_two_pow_eq (n k : Nat) : n &&& 2 ^ k = if n.testBit k then 2 ^ k else 0 := by
  apply Nat.eq_of_testBit_eq
  intro j
  rw [Nat.testBit_and, Nat.testBit_two_pow]
  by_cases hk : k = j
  · subst hk
    by_cases hb : n.testBit k <;> simp [hb]
  · by_cases hb : n.testBit k <;> simp [hb, hk, Nat.testBit_two_pow]

/-- The test `sprite_data & (1 << k)` of the draw loop reads bit `k`. -/
theorem sprite_bit_eq (n k : Nat) : ((n &&& (1 <<< k)) != 0) = n.testBit k := by
  rw [Nat.one_shiftLeft, and_two_pow_eq]
  by_cases hb : n.testBit k <;> simp [hb]

theorem msb_eq (v : Nat) : bool_u8 ((v &&& 0x80) == 0x80) = (v >>> 7) &&& 1 := by
  have h := and_two_pow_eq v 7
  have h2 := Nat.toNat_testBit v 7
  rw [Nat.and_one_is_mod, Nat.shiftRight_eq_div_pow, ← h2]
  norm_num at h
  rw [h]
  by_cases hb : v.testBit 7 <;> simp [hb, bool_u8]

theorem lsb_eq (v : Nat) : bool_u8 ((v &&& 1) != 0) = v &&& 1 := by
  rw [Nat.and_one_is_mod]
  rcases Nat.mod_two_eq_zero_or_one v with h | h <;> simp [h, bool_u8]

/-! ## Arithmetic opcodes `8XY4`, `8XY5`, `8XY7`, `8XY6`, `8XYE`, `7XNN` -/

/-- Claim C1 as stated fails when `X = 0xF`: with `VF = 5` and `V0 = 3`, `8F04`
leaves `VF = 0` (the carry) and not `(5 + 3) mod 256 = 8`; `8F05` leaves
`VF = 1` (no borrow) and not `5 - 3 = 2`; `8F07` leaves `VF = 0` (borrow) and
not `(3 - 5) mod 256 = 254`. -/
theorem c1_counterexample :
    (machine 0x8F04 regs_f5).V 15 = 5 ∧ (machine 0x8F04 regs_f5).V 0 = 3 ∧
    (execute_instruction 0 (machine 0x8F04 regs_f5)).map (fun c => c.V 15) = some 0 ∧
    (execute_instruction 0 (machine 0x8F05 regs_f5)).map (fun c => c.V 15) = some 1 ∧
    (execute_instruction 0 (machine 0x8F07 regs_f5)).map (fun c => c.V 15) = some 0 ∧
    (5 + 3) % 256 = 8 ∧ ((5 : Int) - 3) % 256 = 2 ∧ ((3 : Int) - 5) % 256 = 254 := by
  decide

/-- Claim C1 (amended): for every machine state, every `X` in `0..14` and `Y`
in `0..15`, after `8XY4` register `Vx` holds `(old Vx + old Vy) mod 256`, after
`8XY5` it holds `(old Vx - old Vy) mod 256` and after `8XY7` it holds
`(old Vy - old Vx) mod 256`; when `X = 0xF` the flag is written last, so
`VF` holds a flag value (`0` or `1`). -/
theorem c1_arith_result (rnd : Nat) (c : chip8_t) (X Y N : Nat)
    (hX : X < 16) (hY : Y < 16) (hN : N = 4 ∨ N = 5 ∨ N = 7)
    (hpc : at_pc c (0x8000 + X * 256 + Y * 16 + N)) :
    ∃ c', execute_instruction rnd c = some c' ∧
      (X ≠ 15 →
        (N = 4 → c'.V X = (c.V X + c.V Y) % 256) ∧
        (N = 5 → (c'.V X : Int) = ((c.V X : Int) - c.V Y) % 256) ∧
        (N = 7 → (c'.V X : Int) = ((c.V Y : Int) - c.V X) % 256)) ∧
      (X = 15 → c'.V 15 ≤ 1) := by
  have hN16 : N < 16 := by omega
  obtain ⟨d1, d2, d3, d4, -, -⟩ := decode_xyn 8 X Y N hX hY hN16
  rw [execute_instruction_eq rnd c _ hpc]
  rcases hN with rfl | rfl | rfl
  · simp only [execute_opcode, d1, d2, d3, d4]
    refine ⟨_, rfl, fun hne => ?_, fun he => ?_⟩
    · simp [store, hne]
    · simp [store, he, bool_u8_le_one]
  · simp only [execute_opcode, d1, d2, d3, d4]
    refine ⟨_, rfl, fun hne => ?_, fun he => ?_⟩
    · simp [store, hne, to_u8_eq]
    · simp [store, he, bool_u8_le_one]
  · simp only [execute_opcode, d1, d2, d3, d4]
    refine ⟨_, rfl, fun hne => ?_, fun he => ?_⟩
    · simp [store, hne, to_u8_eq]
    · simp [store, he, bool_u8_le_one]

/-- Concrete instance: `8124` with `V1 = 200`, `V2 = 100`. -/
theorem c1_arith_result_witness :
    (1 < 16 ∧ 2 < 16 ∧ (4 = 4 ∨ 4 = 5 ∨ 4 = 7) ∧
      at_pc (machine 0x8124 regs_12) (0x8000 + 1 * 256 + 2 * 16 + 4)) ∧
    ∃ c', execute_instruction 0 (machine 0x8124 regs_12) = some c' ∧
      (1 ≠ 15 →
        (4 = 4 → c'.V 1 = ((machine 0x8124 regs_12).V 1 + (machine 0x8124 regs_12).V 2) % 256) ∧
        (4 = 5 → (c'.V 1 : Int) =
          (((machine 0x8124 regs_12).V 1 : Int) - (machine 0x8124 regs_12).V 2) % 256) ∧
        (4 = 7 → (c'.V 1 : Int) =
          (((machine 0x8124 regs_12).V 2 : Int) - (machine 0x8124 regs_12).V 1) % 256)) ∧
      (1 = 15 → c'.V 15 ≤ 1) :=
  ⟨by decide, c1_arith_result 0 (machine 0x8124 regs_12) 1 2 4 (by decide) (by decide)
    (by decide) (by decide)⟩

/-- Claim C2: for every machine state whose registers hold 8-bit values and
every `X`, `Y` in `0..15`, the flag is computed from the operands held before
the instruction: after `8XY4`, `VF = 1` if `old Vx + old Vy > 255` and `0`
otherwise; after `8XY5`, `VF = 1` if `old Vx >= old Vy` and `0` otherwise;
after `8XY7`, `VF = 1` if `old Vy >= old Vx` and `0` otherwise. -/
theorem c2_flag (rnd : Nat) (c : chip8_t) (X Y N : Nat)
    (hX : X < 16) (hY : Y < 16) (hN : N = 4 ∨ N = 5 ∨ N = 7)
    (hVX : c.V X < 256) (hVY : c.V Y < 256)
    (hpc : at_pc c (0x8000 + X * 256 + Y * 16 + N)) :
    ∃ c', execute_instruction rnd c = some c' ∧
      (N = 4 → c'.V 15 = if c.V X + c.V Y > 255 then 1 else 0) ∧
      (N = 5 → c'.V 15 = if c.V X ≥ c.V Y then 1 else 0) ∧
      (N = 7 → c'.V 15 = if c.V Y ≥ c.V X then 1 else 0) := by
  have hN16 : N < 16 := by omega
  obtain ⟨d1, d2, d3, d4, -, -⟩ := decode_xyn 8 X Y N hX hY hN16
  rw [execute_instruction_eq rnd c _ hpc]
  have hsum : (c.V X + c.V Y) % 65536 = c.V X + c.V Y := Nat.mod_eq_of_lt (by omega)
  rcases hN with rfl | rfl | rfl <;>
    simp [execute_opcode, d1, d2, d3, d4, store, bool_u8, hsum]

/-- Concrete instance: `8F25` with `VF = 5`, `V2 = 0` (flag register as operand). -/
theorem c2_flag_witness :
    (15 < 16 ∧ 2 < 16 ∧ (5 = 4 ∨ 5 = 5 ∨ 5 = 7) ∧
      (machine 0x8F25 regs_f5).V 15 < 256 ∧ (machine 0x8F25 regs_f5).V 2 < 256 ∧
      at_pc (machine 0x8F25 regs_f5) (0x8000 + 15 * 256 + 2 * 16 + 5)) ∧
    ∃ c', execute_instruction 0 (machine 0x8F25 regs_f5) = some c' ∧
      (5 = 4 → c'.V 15 =
        if (machine 0x8F25 regs_f5).V 15 + (machine 0x8F25 regs_f5).V 2 > 255 then 1 else 0) ∧
      (5 = 5 → c'.V 15 =
        if (machine 0x8F25 regs_f5).V 15 ≥ (machine 0x8F25 regs_f5).V 2 then 1 else 0) ∧
      (5 = 7 → c'.V 15 =
        if (machine 0x8F25 regs_f5).V 2 ≥ (machine 0x8F25 regs_f5).V 15 then 1 else 0) :=
  ⟨by decide, c2_flag 0 (machine 0x8F25 regs_f5) 15 2 5 (by decide) (by decide)
    (by decide) (by decide) (by decide) (by decide)⟩

/-- Claim C3: for every machine state and every `X`, `Y` in `0..15`, the shift
opcodes compute the flag from the pre-shift value of `Vx`: after `8XY6`,
`VF = old Vx & 1` and (for `X != 0xF`) `Vx = old Vx >> 1`; after `8XYE`,
`VF = (old Vx >> 7) & 1` and (for `X != 0xF`) `Vx = (old Vx << 1) mod 256`.
`Vy` does not influence either result: any machine state with the same `Vx`
running the same opcode ends with the same `VF` and `Vx`. -/
theorem c3_shift (rnd : Nat) (c : chip8_t) (X Y N : Nat)
    (hX : X < 16) (hY : Y < 16) (hN : N = 6 ∨ N = 0xE)
    (hpc : at_pc c (0x8000 + X * 256 + Y * 16 + N)) :
    ∃ c', execute_instruction rnd c = some c' ∧
      (N = 6 → c'.V 15 = c.V X &&& 1 ∧ (X ≠ 15 → c'.V X = c.V X >>> 1)) ∧
      (N = 0xE → c'.V 15 = (c.V X >>> 7) &&& 1 ∧ (X ≠ 15 → c'.V X = (c.V X <<< 1) % 256)) ∧
      (∀ (rnd2 : Nat) (d d' : chip8_t), at_pc d (0x8000 + X * 256 + Y * 16 + N) →
        d.V X = c.V X → execute_instruction rnd2 d = some d' →
        d'.V 15 = c'.V 15 ∧ d'.V X = c'.V X) := by
  have hN16 : N < 16 := by omega
  obtain ⟨d1, d2, d3, d4, -, -⟩ := decode_xyn 8 X Y N hX hY hN16
  rw [execute_instruction_eq rnd c _ hpc]
  rcases hN with rfl | rfl
  · simp only [execute_opcode, d1, d2, d3, d4]
    refine ⟨_, rfl, fun _ => ⟨?_, fun hne => ?_⟩, fun h => ?_, ?_⟩
    · exact lsb_eq _
    · simp [store, hne]
    · simp at h
    · intro rnd2 d d' hd hV hex
      rw [execute_instruction_eq rnd2 d _ hd] at hex
      simp only [execute_opcode, d1, d2, d3, d4] at hex
      simp at hex
      subst hex
      simp [store, hV]
  · simp only [execute_opcode, d1, d2, d3, d4]
    refine ⟨_, rfl, fun h => ?_, fun _ => ⟨?_, fun hne => ?_⟩, ?_⟩
    · simp at h
    · exact msb_eq _
    · simp [store, hne]
    · intro rnd2 d d' hd hV hex
      rw [execute_instruction_eq rnd2 d _ hd] at hex
      simp only [execute_opcode, d1, d2, d3, d4] at hex
      simp at hex
      subst hex
      simp [store, hV]

/-- Concrete instance: `812E` with `V1 = 200`, `V2 = 100`. -/
theorem c3_shift_witness :
    (1 < 16 ∧ 2 < 16 ∧ (0xE = 6 ∨ 0xE = 0xE) ∧
      at_pc (machine 0x812E regs_12) (0x8000 + 1 * 256 + 2 * 16 + 0xE)) ∧
    ∃ c', execute_instruction 0 (machine 0x812E regs_12) = some c' ∧
      (0xE = 6 → c'.V 15 = (machine 0x812E regs_12).V 1 &&& 1 ∧
        (1 ≠ 15 → c'.V 1 = (machine 0x812E regs_12).V 1 >>> 1)) ∧
      (0xE = 0xE → c'.V 15 = ((machine 0x812E regs_12).V 1 >>> 7) &&& 1 ∧
        (1 ≠ 15 → c'.V 1 = ((machine 0x812E regs_12).V 1 <<< 1) % 256)) ∧
      (∀ (rnd2 : Nat) (d d' : chip8_t), at_pc d (0x8000 + 1 * 256 + 2 * 16 + 0xE) →
        d.V 1 = (machine 0x812E regs_12).V 1 → execute_instruction rnd2 d = some d' →
        d'.V 15 = c'.V 15 ∧ d'.V 1 = c'.V 1) :=
  ⟨by decide, c3_shift 0 (machine 0x812E regs_12) 1 2 0xE (by decide) (by decide)
    (by decide) (by decide)⟩

/-- Claim C4: for every machine state, every `X` in `0..15` and every byte
`NN`, after `7XNN` register `Vx` holds `(old Vx + NN) mod 256` and every other
register, `VF` included when `X != 0xF`, is unchanged (no flag effect). -/
theorem c4_add_immediate (rnd : Nat) (c : chip8_t) (X NN : Nat)
    (hX : X < 16) (hNN : NN < 256) (hpc : at_pc c (0x7000 + X * 256 + NN)) :
    ∃ c', execute_instruction rnd c = some c' ∧
      c'.V X = (c.V X + NN) % 256 ∧ ∀ i, i ≠ X → c'.V i = c.V i := by
  obtain ⟨d1, d2, d3⟩ := decode_xnn 7 X NN hX hNN
  rw [execute_instruction_eq rnd c _ hpc]
  simp only [execute_opcode, d1, d2, d3]
  refine ⟨_, rfl, ?_, fun i hi => ?_⟩
  · simp [store]
  · simp [store, hi]

/-- Concrete instance: `71FF` with `V1 = 200` wraps to `199`. -/
theorem c4_add_immediate_witness :
    (1 < 16 ∧ 0xFF < 256 ∧ at_pc (machine 0x71FF regs_12) (0x7000 + 1 * 256 + 0xFF)) ∧
    ∃ c', execute_instruction 0 (machine 0x71FF regs_12) = some c' ∧
      c'.V 1 = ((machine 0x71FF regs_12).V 1 + 0xFF) % 256 ∧
      ∀ i, i ≠ 1 → c'.V i = (machine 0x71FF regs_12).V i :=
  ⟨by decide, c4_add_immediate 0 (machine 0x71FF regs_12) 1 0xFF (by decide) (by decide)
    (by decide)⟩

/-! ## Sprite drawing `DXYN` -/

/-- One iteration of the inner draw loop. -/
theorem draw_bits_succ (d y k x : Nat) (c : chip8_t) :
    draw_bits d y (k + 1) x c =
      if 64 ≤ x + 1 then
        { c with
          V := if (d.testBit k && c.display (y * 64 + x)) = true then store c.V 15 1 else c.V
          display := store c.display (y * 64 + x) (xor (c.display (y * 64 + x)) (d.testBit k)) }
      else
        draw_bits d y k (x + 1) { c with
          V := if (d.testBit k && c.display (y * 64 + x)) = true then store c.V 15 1 else c.V
          display := store c.display (y * 64 + x) (xor (c.display (y * 64 + x)) (d.testBit k)) } := by
  rw [draw_bits]
  simp only [sprite_bit_eq, SCREEN_WIDTH, ge_iff_le]
  by_cases hb : (d.testBit k && c.display (y * 64 + x)) = true
  · simp only [hb, if_true]
  · simp only [hb, Bool.false_eq_true, if_false]

theorem draw_bits_display (d y : Nat) : ∀ (m x : Nat) (c : chip8_t) (p : Nat), x < 64 →
    (draw_bits d y m x c).display p =
      if p / 64 = y ∧ x ≤ p % 64 ∧ p % 64 < x + m then
        xor (c.display p) (d.testBit (x + m - 1 - p % 64))
      else c.display p := by
  intro m
  induction m with
  | zero =>
    intro x c p _
    rw [if_neg (by omega)]
    rfl
  | succ k ih =>
    intro x c p hx
    rw [draw_bits_succ]
    by_cases hx1 : 64 ≤ x + 1
    · rw [if_pos hx1]
      simp only [store]
      by_cases hp : p = y * 64 + x
      · subst hp
        rw [if_pos rfl, if_pos (by omega)]
        congr 2
        omega
      · rw [if_neg hp, if_neg (by omega)]
    · rw [if_neg hx1, ih _ _ _ (by omega)]
      simp only [store]
      by_cases hp : p = y * 64 + x
      · subst hp
        rw [if_neg (by omega), if_pos rfl, if_pos (by omega)]
        congr 2
        omega
      · rw [if_neg hp]
        by_cases hw : p / 64 = y ∧ x + 1 ≤ p % 64 ∧ p % 64 < x + 1 + k
        · rw [if_pos hw, if_pos (by omega)]
          congr 2
          omega
        · rw [if_neg hw, if_neg (by omega)]


theorem draw_bits_frame (d y : Nat) : ∀ (m x : Nat) (c : chip8_t),
    (draw_bits d y m x c).ram = c.ram ∧ (draw_bits d y m x c).I = c.I ∧
    (∀ i, i ≠ 15 → (draw_bits d y m x c).V i = c.V i) ∧
    (c.V 15 ≤ 1 → (draw_bits d y m x c).V 15 ≤ 1) := by
  intro m
  induction m with
  | zero => intro x c; exact ⟨rfl, rfl, fun _ _ => rfl, fun h => h⟩
  | succ k ih =>
    intro x c
    rw [draw_bits_succ]
    by_cases hx1 : 64 ≤ x + 1
    · rw [if_pos hx1]
      refine ⟨rfl, rfl, fun i hi => ?_, fun h => ?_⟩
      · by_cases hb : (d.testBit k && c.display (y * 64 + x)) = true <;> simp [hb, store, hi]
      · by_cases hb : (d.testBit k && c.display (y * 64 + x)) = true <;> simp [hb, store, h]
    · rw [if_neg hx1]
      obtain ⟨h1, h2, h3, h4⟩ := ih (x + 1) { c with
          V := if (d.testBit k && c.display (y * 64 + x)) = true then store c.V 15 1 else c.V
          display := store c.display (y * 64 + x) (xor (c.display (y * 64 + x)) (d.testBit k)) }
      refine ⟨h1, h2, fun i hi => ?_, fun h => ?_⟩
      · rw [h3 i hi]
        by_cases hb : (d.testBit k && c.display (y * 64 + x)) = true <;> simp [hb, store, hi]
      · apply h4
        by_cases hb : (d.testBit k && c.display (y * 64 + x)) = true <;> simp [hb, store, h]

theorem draw_bits_VF (d y : Nat) : ∀ (m x : Nat) (c : chip8_t), x < 64 →
    ((draw_bits d y m x c).V 15 = 1 ↔
      c.V 15 = 1 ∨ ∃ p, p / 64 = y ∧ x ≤ p % 64 ∧ p % 64 < x + m ∧
        d.testBit (x + m - 1 - p % 64) = true ∧ c.display p = true) := by
  intro m
  induction m with
  | zero =>
    intro x c _
    constructor
    · intro h; exact Or.inl h
    · rintro (h | ⟨p, _, h1, h2, _⟩)
      · exact h
      · omega
  | succ k ih =>
    intro x c hx
    have hstep : ∀ c2 : chip8_t,
        c2 = { c with
          V := if (d.testBit k && c.display (y * 64 + x)) = true then store c.V 15 1 else c.V
          display := store c.display (y * 64 + x) (xor (c.display (y * 64 + x)) (d.testBit k)) } →
        (c2.V 15 = 1 ↔ c.V 15 = 1 ∨ (d.testBit k = true ∧ c.display (y * 64 + x) = true)) := by
      intro c2 hc2
      subst hc2
      by_cases hb : (d.testBit k && c.display (y * 64 + x)) = true
      · simp only [hb, if_true, store]
        simp at hb
        simp [hb]
      · simp only [hb, if_false]
        simp at hb
        constructor
        · intro h; exact Or.inl h
        · rintro (h | ⟨h1, h2⟩)
          · exact h
          · rw [hb h1] at h2; cases h2
    rw [draw_bits_succ]
    by_cases hx1 : 64 ≤ x + 1
    · rw [if_pos hx1, hstep _ rfl]
      constructor
      · rintro (h | ⟨h1, h2⟩)
        · exact Or.inl h
        · refine Or.inr ⟨y * 64 + x, by omega, by omega, by omega, ?_, h2⟩
          rw [← h1]; congr 1; omega
      · rintro (h | ⟨p, h1, h2, h3, h4, h5⟩)
        · exact Or.inl h
        · have hp : p = y * 64 + x := by omega
          subst hp
          refine Or.inr ⟨?_, h5⟩
          rw [← h4]; congr 1; omega
    · rw [if_neg hx1, ih _ _ (by omega), hstep _ rfl]
      constructor
      · rintro ((h | ⟨h1, h2⟩) | ⟨p, h1, h2, h3, h4, h5⟩)
        · exact Or.inl h
        · refine Or.inr ⟨y * 64 + x, by omega, by omega, by omega, ?_, h2⟩
          rw [← h1]; congr 1; omega
        · refine Or.inr ⟨p, h1, by omega, by omega, ?_, ?_⟩
          · rw [← h4]; congr 1; omega
          · rw [← h5]
            simp only [store]
            rw [if_neg (by omega)]
      · rintro (h | ⟨p, h1, h2, h3, h4, h5⟩)
        · exact Or.inl (Or.inl h)
        · by_cases hp : p = y * 64 + x
          · subst hp
            refine Or.inl (Or.inr ⟨?_, h5⟩)
            rw [← h4]; congr 1; omega
          · refine Or.inr ⟨p, h1, by omega, by omega, ?_, ?_⟩
            · rw [← h4]; congr 1; omega
            · rw [← h5]
              simp only [store]
              rw [if_neg hp]


theorem draw_rows_spec (x0 : Nat) (hx0 : x0 < 64) : ∀ (n j y : Nat) (c : chip8_t),
    y < 32 → c.I + j + n ≤ 4096 →
    ∃ c', draw_rows x0 n j y c = some c' ∧ c'.ram = c.ram ∧ c'.I = c.I ∧
      (∀ i, i ≠ 15 → c'.V i = c.V i) ∧ (c.V 15 ≤ 1 → c'.V 15 ≤ 1) ∧
      (∀ p, c'.display p =
        if y ≤ p / 64 ∧ p / 64 < y + n ∧ p / 64 < 32 ∧ x0 ≤ p % 64 ∧ p % 64 < x0 + 8 then
          xor (c.display p) ((c.ram (c.I + (j + (p / 64 - y)))).testBit (x0 + 8 - 1 - p % 64))
        else c.display p) ∧
      (c'.V 15 = 1 ↔ c.V 15 = 1 ∨ ∃ p,
        (y ≤ p / 64 ∧ p / 64 < y + n ∧ p / 64 < 32 ∧ x0 ≤ p % 64 ∧ p % 64 < x0 + 8) ∧
        (c.ram (c.I + (j + (p / 64 - y)))).testBit (x0 + 8 - 1 - p % 64) = true ∧
        c.display p = true) := by
  intro n
  induction n with
  | zero =>
    intro j y c _ _
    refine ⟨c, rfl, rfl, rfl, fun _ _ => rfl, fun h => h, fun p => ?_, ?_⟩
    · rw [if_neg (by omega)]
    · constructor
      · intro h; exact Or.inl h
      · rintro (h | ⟨p, hw, _⟩)
        · exact h
        · omega
  | succ n ih =>
    intro j y c hy hI
    rw [draw_rows, if_pos (by omega)]
    obtain ⟨f1, f2, f3, f4⟩ := draw_bits_frame (c.ram (c.I + j)) y 8 x0 c
    have hd := draw_bits_display (c.ram (c.I + j)) y 8 x0 c
    have hv := draw_bits_VF (c.ram (c.I + j)) y 8 x0 c hx0
    simp only [SCREEN_HEIGHT, ge_iff_le]
    by_cases hy1 : 32 ≤ y + 1
    · rw [if_pos hy1]
      refine ⟨_, rfl, f1, f2, f3, f4, fun p => ?_, ?_⟩
      · rw [hd p hx0]
        by_cases hw : p / 64 = y ∧ x0 ≤ p % 64 ∧ p % 64 < x0 + 8
        · rw [if_pos hw, if_pos (by omega)]
          have e : j + (p / 64 - y) = j := by omega
          rw [e]
        · rw [if_neg hw, if_neg (by omega)]
      · rw [hv]
        constructor
        · rintro (h | ⟨p, h1, h2, h3, h4, h5⟩)
          · exact Or.inl h
          · refine Or.inr ⟨p, by omega, ?_, h5⟩
            have e : j + (p / 64 - y) = j := by omega
            rw [e]; exact h4
        · rintro (h | ⟨p, h1, h4, h5⟩)
          · exact Or.inl h
          · refine Or.inr ⟨p, by omega, by omega, by omega, ?_, h5⟩
            have e : j + (p / 64 - y) = j := by omega
            rw [e] at h4; exact h4
    · rw [if_neg hy1]
      obtain ⟨c', e1, e2, e3, e4, e5, e6, e7⟩ :=
        ih (j + 1) (y + 1) (draw_bits (c.ram (c.I + j)) y 8 x0 c) (by omega) (by rw [f2]; omega)
      refine ⟨c', e1, e2.trans f1, e3.trans f2, fun i hi => (e4 i hi).trans (f3 i hi),
        fun h => e5 (f4 h), fun p => ?_, ?_⟩
      · rw [e6 p, hd p hx0, f1, f2]
        by_cases hw : p / 64 = y ∧ x0 ≤ p % 64 ∧ p % 64 < x0 + 8
        · rw [if_pos hw, if_neg (by omega), if_pos (by omega)]
          have e : j + (p / 64 - y) = j := by omega
          rw [e]
        · rw [if_neg hw]
          by_cases hw2 : y + 1 ≤ p / 64 ∧ p / 64 < y + 1 + n ∧ p / 64 < 32 ∧
              x0 ≤ p % 64 ∧ p % 64 < x0 + 8
          · rw [if_pos hw2, if_pos (by omega)]
            have e : j + 1 + (p / 64 - (y + 1)) = j + (p / 64 - y) := by omega
            rw [e]
          · rw [if_neg hw2, if_neg (by omega)]
      · rw [e7, hv, f1, f2]
        constructor
        · rintro ((h | ⟨p, h1, h2, h3, h4, h5⟩) | ⟨p, h1, h4, h5⟩)
          · exact Or.inl h
          · refine Or.inr ⟨p, by omega, ?_, h5⟩
            have e : j + (p / 64 - y) = j := by omega
            rw [e]; exact h4
          · refine Or.inr ⟨p, by omega, ?_, ?_⟩
            · have e : j + 1 + (p / 64 - (y + 1)) = j + (p / 64 - y) := by omega
              rw [e] at h4; exact h4
            · rw [hd p hx0, if_neg (by omega)] at h5; exact h5
        · rintro (h | ⟨p, h1, h4, h5⟩)
          · exact Or.inl (Or.inl h)
          · by_cases hp : p / 64 = y
            · refine Or.inl (Or.inr ⟨p, hp, by omega, by omega, ?_, h5⟩)
              have e : j + (p / 64 - y) = j := by omega
              rw [e] at h4; exact h4
            · refine Or.inr ⟨p, by omega, ?_, ?_⟩
              · have e : j + 1 + (p / 64 - (y + 1)) = j + (p / 64 - y) := by omega
                rw [e]; exact h4
              · rw [hd p hx0, if_neg (by omega)]; exact h5


/-- Closed form of `DXYN`: display and `VF` after the draw. -/
theorem execute_draw (rnd : Nat) (c : chip8_t) (X Y N : Nat)
    (hX : X < 16) (hY : Y < 16) (hN : N < 16) (hI : c.I + N ≤ 4096)
    (hpc : at_pc c (0xD000 + X * 256 + Y * 16 + N)) :
    ∃ c', execute_instruction rnd c = some c' ∧ c'.ram = c.ram ∧ c'.I = c.I ∧
      (∀ i, i ≠ 15 → c'.V i = c.V i) ∧ c'.V 15 ≤ 1 ∧
      (∀ p, c'.display p =
        if c.V Y % 32 ≤ p / 64 ∧ p / 64 < c.V Y % 32 + N ∧ p / 64 < 32 ∧
            c.V X % 64 ≤ p % 64 ∧ p % 64 < c.V X % 64 + 8 then
          xor (c.display p)
            ((c.ram (c.I + (p / 64 - c.V Y % 32))).testBit (c.V X % 64 + 8 - 1 - p % 64))
        else c.display p) ∧
      (c'.V 15 = 1 ↔ ∃ p,
        (c.V Y % 32 ≤ p / 64 ∧ p / 64 < c.V Y % 32 + N ∧ p / 64 < 32 ∧
          c.V X % 64 ≤ p % 64 ∧ p % 64 < c.V X % 64 + 8) ∧
        (c.ram (c.I + (p / 64 - c.V Y % 32))).testBit (c.V X % 64 + 8 - 1 - p % 64) = true ∧
        c.display p = true) := by
  obtain ⟨d1, d2, d3, d4, -, -⟩ := decode_xyn 13 X Y N hX hY hN
  rw [execute_instruction_eq rnd c _ hpc]
  simp only [execute_opcode, d1, d2, d3, d4]
  simp only [SCREEN_WIDTH, SCREEN_HEIGHT]
  obtain ⟨c', e1, e2, e3, e4, e5, e6, e7⟩ :=
    draw_rows_spec (c.V X % 64) (Nat.mod_lt _ (by norm_num)) N 0 (c.V Y % 32)
      { c with PC := (c.PC + 2) % 65536, V := store c.V 15 0 }
      (Nat.mod_lt _ (by norm_num)) (by simpa using hI)
  refine ⟨c', ?_, e2, e3, fun i hi => ?_, ?_, fun p => ?_, ?_⟩
  · simpa using e1
  · rw [e4 i hi]; simp [store, hi]
  · apply e5; simp [store]
  · rw [e6 p]; simp
  · rw [e7]; simp [store]

/-- Claim C5: for every machine state with `I + N <= 4096`, after `DXYN` the
display equals the reference compositing: with `x0 = Vx mod 64` and
`y0 = Vy mod 32`, each pixel `(x0 + col, y0 + r)` with `r < N`, `col < 8`,
`x0 + col < 64` and `y0 + r < 32` becomes its old value XOR bit `7 - col` of
`ram[I + r]`, and every other pixel is unchanged; in particular a sprite whose
origin is `(60, 0)` changes no pixel in columns `0..59`. -/
theorem c5_draw (rnd : Nat) (c : chip8_t) (X Y N : Nat)
    (hX : X < 16) (hY : Y < 16) (hN : N < 16) (hI : c.I + N ≤ 4096)
    (hpc : at_pc c (0xD000 + X * 256 + Y * 16 + N)) :
    ∃ c', execute_instruction rnd c = some c' ∧
      (∀ r col, r < N → col < 8 → c.V X % 64 + col < 64 → c.V Y % 32 + r < 32 →
        c'.display ((c.V Y % 32 + r) * 64 + (c.V X % 64 + col)) =
          xor (c.display ((c.V Y % 32 + r) * 64 + (c.V X % 64 + col)))
            ((c.ram (c.I + r)).testBit (7 - col))) ∧
      (∀ p, (¬ ∃ r col, r < N ∧ col < 8 ∧ c.V X % 64 + col < 64 ∧ c.V Y % 32 + r < 32 ∧
          p = (c.V Y % 32 + r) * 64 + (c.V X % 64 + col)) →
        c'.display p = c.display p) ∧
      (c.V X % 64 = 60 → c.V Y % 32 = 0 → ∀ row col, row < 32 → col < 60 →
        c'.display (row * 64 + col) = c.display (row * 64 + col)) := by
  obtain ⟨c', h, -, -, -, -, hd, -⟩ := execute_draw rnd c X Y N hX hY hN hI hpc
  refine ⟨c', h, fun r col hr hcol hx hy => ?_, fun p hp => ?_, fun hx0 hy0 row col hrow hcol => ?_⟩
  · rw [hd, if_pos (by omega)]
    have e1 : ((c.V Y % 32 + r) * 64 + (c.V X % 64 + col)) / 64 - c.V Y % 32 = r := by omega
    have e2 : c.V X % 64 + 8 - 1 - ((c.V Y % 32 + r) * 64 + (c.V X % 64 + col)) % 64 = 7 - col := by
      omega
    rw [e1, e2]
  · rw [hd]
    by_cases hw : c.V Y % 32 ≤ p / 64 ∧ p / 64 < c.V Y % 32 + N ∧ p / 64 < 32 ∧
        c.V X % 64 ≤ p % 64 ∧ p % 64 < c.V X % 64 + 8
    · exact absurd ⟨p / 64 - c.V Y % 32, p % 64 - c.V X % 64, by omega, by omega, by omega,
        by omega, by omega⟩ hp
    · rw [if_neg hw]
  · rw [hd, if_neg (by omega)]

/-- Concrete instance: `D012` on `draw_machine` (origin `(62, 31)`). -/
theorem c5_draw_witness :
    (0 < 16 ∧ 1 < 16 ∧ 2 < 16 ∧ draw_machine.I + 2 ≤ 4096 ∧
      at_pc draw_machine (0xD000 + 0 * 256 + 1 * 16 + 2)) ∧
    ∃ c', execute_instruction 0 draw_machine = some c' ∧
      (∀ r col, r < 2 → col < 8 → draw_machine.V 0 % 64 + col < 64 →
        draw_machine.V 1 % 32 + r < 32 →
        c'.display ((draw_machine.V 1 % 32 + r) * 64 + (draw_machine.V 0 % 64 + col)) =
          xor (draw_machine.display
              ((draw_machine.V 1 % 32 + r) * 64 + (draw_machine.V 0 % 64 + col)))
            ((draw_machine.ram (draw_machine.I + r)).testBit (7 - col))) ∧
      (∀ p, (¬ ∃ r col, r < 2 ∧ col < 8 ∧ draw_machine.V 0 % 64 + col < 64 ∧
          draw_machine.V 1 % 32 + r < 32 ∧
          p = (draw_machine.V 1 % 32 + r) * 64 + (draw_machine.V 0 % 64 + col)) →
        c'.display p = draw_machine.display p) ∧
      (draw_machine.V 0 % 64 = 60 → draw_machine.V 1 % 32 = 0 → ∀ row col, row < 32 →
        col < 60 → c'.display (row * 64 + col) = draw_machine.display (row * 64 + col)) :=
  ⟨by decide, c5_draw 0 draw_machine 0 1 2 (by decide) (by decide) (by decide) (by decide)
    (by decide)⟩

/-- Claim C6: for every machine state with `I + N <= 4096` and every `X`, `Y`,
`N`, after `DXYN` register `VF` is `1` if and only if at least one display
pixel that was on before the draw is off after it, and `VF` is `0` otherwise
(including when `N = 0`). -/
theorem c6_collision (rnd : Nat) (c : chip8_t) (X Y N : Nat)
    (hX : X < 16) (hY : Y < 16) (hN : N < 16) (hI : c.I + N ≤ 4096)
    (hpc : at_pc c (0xD000 + X * 256 + Y * 16 + N)) :
    ∃ c', execute_instruction rnd c = some c' ∧
      (c'.V 15 = 1 ↔ ∃ x y, x < 64 ∧ y < 32 ∧
        c.display (y * 64 + x) = true ∧ c'.display (y * 64 + x) = false) ∧
      (c'.V 15 ≠ 1 → c'.V 15 = 0) ∧
      (N = 0 → c'.V 15 = 0) := by
  obtain ⟨c', h, -, -, -, hle, hd, hv⟩ := execute_draw rnd c X Y N hX hY hN hI hpc
  have hiff : c'.V 15 = 1 ↔ ∃ x y, x < 64 ∧ y < 32 ∧
      c.display (y * 64 + x) = true ∧ c'.display (y * 64 + x) = false := by
    rw [hv]
    constructor
    · rintro ⟨p, hw, hb, hp⟩
      have e : p / 64 * 64 + p % 64 = p := by omega
      refine ⟨p % 64, p / 64, by omega, by omega, by rw [e]; exact hp, ?_⟩
      rw [e, hd, if_pos hw, hb, hp]
      rfl
    · rintro ⟨x, y, hx, hy, h1, h2⟩
      rw [hd] at h2
      by_cases hw : c.V Y % 32 ≤ (y * 64 + x) / 64 ∧ (y * 64 + x) / 64 < c.V Y % 32 + N ∧
          (y * 64 + x) / 64 < 32 ∧ c.V X % 64 ≤ (y * 64 + x) % 64 ∧
          (y * 64 + x) % 64 < c.V X % 64 + 8
      · rw [if_pos hw, h1] at h2
        refine ⟨y * 64 + x, hw, ?_, h1⟩
        simpa using h2
      · rw [if_neg hw, h1] at h2
        cases h2
  refine ⟨c', h, hiff, fun hne => by omega, fun hN0 => ?_⟩
  have : ¬ c'.V 15 = 1 := by
    rw [hv]
    rintro ⟨p, hw, -⟩
    omega
  omega

/-- Concrete instance: `D012` on `draw_machine`, whose lit pixel
`(62, 31)` is erased. -/
theorem c6_collision_witness :
    (0 < 16 ∧ 1 < 16 ∧ 2 < 16 ∧ draw_machine.I + 2 ≤ 4096 ∧
      at_pc draw_machine (0xD000 + 0 * 256 + 1 * 16 + 2)) ∧
    ∃ c', execute_instruction 0 draw_machine = some c' ∧
      (c'.V 15 = 1 ↔ ∃ x y, x < 64 ∧ y < 32 ∧
        draw_machine.display (y * 64 + x) = true ∧ c'.display (y * 64 + x) = false) ∧
      (c'.V 15 ≠ 1 → c'.V 15 = 0) ∧
      (2 = 0 → c'.V 15 = 0) :=
  ⟨by decide, c6_collision 0 draw_machine 0 1 2 (by decide) (by decide) (by decide)
    (by decide) (by decide)⟩

/-- Claim C7: for every machine state with `I + N <= 4096`, executing the same
`DXYN` twice with `I`, `Vx` and `Vy` holding the same values at both draws
(`I` is never changed by the draw) leaves the display exactly as it was before
the first draw, and the `VF` left by the second draw is `1` if and only if some
visible set sprite bit lands on a pixel that is lit in the first draw's output
(and `0` otherwise). -/
theorem c7_redraw (rnd rnd2 : Nat) (c : chip8_t) (X Y N : Nat)
    (hX : X < 16) (hY : Y < 16) (hN : N < 16) (hI : c.I + N ≤ 4096)
    (hpc : at_pc c (0xD000 + X * 256 + Y * 16 + N)) :
    ∃ c1, execute_instruction rnd c = some c1 ∧ c1.I = c.I ∧
      (at_pc c1 (0xD000 + X * 256 + Y * 16 + N) → c1.V X = c.V X → c1.V Y = c.V Y →
        ∃ c2, execute_instruction rnd2 c1 = some c2 ∧
          c2.display = c.display ∧
          (c2.V 15 = 1 ↔ ∃ r col, r < N ∧ col < 8 ∧
            c.V X % 64 + col < 64 ∧ c.V Y % 32 + r < 32 ∧
            (c.ram (c.I + r)).testBit (7 - col) = true ∧
            c1.display ((c.V Y % 32 + r) * 64 + (c.V X % 64 + col)) = true) ∧
          (c2.V 15 ≠ 1 → c2.V 15 = 0)) := by
  obtain ⟨c1, h1, hram, hIeq, -, -, hd, -⟩ := execute_draw rnd c X Y N hX hY hN hI hpc
  refine ⟨c1, h1, hIeq, fun hpc1 hVX hVY => ?_⟩
  obtain ⟨c2, h2, -, -, -, hle, hd2, hv2⟩ :=
    execute_draw rnd2 c1 X Y N hX hY hN (by rw [hIeq]; exact hI) hpc1
  rw [hVX, hVY, hram, hIeq] at hd2 hv2
  refine ⟨c2, h2, ?_, ?_, fun hne => by omega⟩
  · funext p
    rw [hd2 p, hd p]
    by_cases hw : c.V Y % 32 ≤ p / 64 ∧ p / 64 < c.V Y % 32 + N ∧ p / 64 < 32 ∧
        c.V X % 64 ≤ p % 64 ∧ p % 64 < c.V X % 64 + 8
    · rw [if_pos hw, if_pos hw]
      simp
    · rw [if_neg hw, if_neg hw]
  · rw [hv2]
    constructor
    · rintro ⟨p, hw, hb, hp⟩
      refine ⟨p / 64 - c.V Y % 32, p % 64 - c.V X % 64, by omega, by omega, by omega,
        by omega, ?_, ?_⟩
      · have e : 7 - (p % 64 - c.V X % 64) = c.V X % 64 + 8 - 1 - p % 64 := by omega
        rw [e]; exact hb
      · have e : (c.V Y % 32 + (p / 64 - c.V Y % 32)) * 64 +
            (c.V X % 64 + (p % 64 - c.V X % 64)) = p := by omega
        rw [e]; exact hp
    · rintro ⟨r, col, hr, hcol, hx, hy, hb, hp⟩
      refine ⟨(c.V Y % 32 + r) * 64 + (c.V X % 64 + col), by omega, ?_, hp⟩
      have e1 : ((c.V Y % 32 + r) * 64 + (c.V X % 64 + col)) / 64 - c.V Y % 32 = r := by omega
      have e2 : c.V X % 64 + 8 - 1 - ((c.V Y % 32 + r) * 64 + (c.V X % 64 + col)) % 64 =
          7 - col := by omega
      rw [e1, e2]; exact hb

/-- Concrete instance: `D012` twice on `draw_machine`; both steps return, the
second one on a state that again holds `D012` at its `PC`. -/
theorem c7_redraw_witness :
    (0 < 16 ∧ 1 < 16 ∧ 2 < 16 ∧ draw_machine.I + 2 ≤ 4096 ∧
      at_pc draw_machine (0xD000 + 0 * 256 + 1 * 16 + 2)) ∧
    ∃ c1, execute_instruction 0 draw_machine = some c1 ∧ c1.I = draw_machine.I ∧
      at_pc c1 (0xD000 + 0 * 256 + 1 * 16 + 2) ∧
      c1.V 0 = draw_machine.V 0 ∧ c1.V 1 = draw_machine.V 1 ∧
      ∃ c2, execute_instruction 0 c1 = some c2 ∧
        c2.display = draw_machine.display ∧
        (c2.V 15 = 1 ↔ ∃ r col, r < 2 ∧ col < 8 ∧
          draw_machine.V 0 % 64 + col < 64 ∧ draw_machine.V 1 % 32 + r < 32 ∧
          (draw_machine.ram (draw_machine.I + r)).testBit (7 - col) = true ∧
          c1.display ((draw_machine.V 1 % 32 + r) * 64 + (draw_machine.V 0 % 64 + col)) =
            true) ∧
        (c2.V 15 ≠ 1 → c2.V 15 = 0) := by
  refine ⟨by decide, ?_⟩
  obtain ⟨c1, h1, hI1, h⟩ := c7_redraw 0 0 draw_machine 0 1 2 (by decide) (by decide)
    (by decide) (by decide) (by decide)
  have e : c1 = draw_machine_1 := by
    have h0 : execute_instruction 0 draw_machine = some draw_machine_1 := rfl
    rw [h0] at h1
    exact (Option.some.inj h1).symm
  subst e
  exact ⟨_, h1, hI1, by decide, by decide, by decide, h (by decide) (by decide) (by decide)⟩

/-! ## Call and return `2NNN`, `00EE` -/

/-- Claim C8: for every machine state with `0 <= stack_size < 16` whose `PC` is
`p`, where `ram` holds `2NNN` at `p` and `00EE` at `NNN`, two consecutive
`execute_instruction` steps leave `PC = p + 2` (the address of the instruction
following the call) and `stack_size` equal to its original value. -/
theorem c8_call_return (rnd rnd2 : Nat) (c : chip8_t) (NNN : Nat)
    (hNNN : NNN < 4096) (hs : 0 ≤ c.stack_size ∧ c.stack_size < 16)
    (hpc : at_pc c (0x2000 + NNN))
    (hret : NNN + 1 < 4096 ∧ instr_at c.ram NNN = 0x00EE) :
    ∃ c1 c2, execute_instruction rnd c = some c1 ∧ execute_instruction rnd2 c1 = some c2 ∧
      c2.PC = c.PC + 2 ∧ c2.stack_size = c.stack_size := by
  obtain ⟨d1, d2⟩ := decode_nnn 2 NNN hNNN
  have hpc2 : (c.PC + 2) % 65536 = c.PC + 2 := Nat.mod_eq_of_lt (by have := hpc.1; omega)
  have step1 : execute_instruction rnd c = some { c with
      stack := store c.stack c.stack_size.toNat (c.PC + 2)
      stack_size := c.stack_size + 1
      PC := NNN } := by
    rw [execute_instruction_eq rnd c _ hpc]
    simp [execute_opcode, d1, d2, hs, hpc2]
  have hpc1 : at_pc { c with
      stack := store c.stack c.stack_size.toNat (c.PC + 2)
      stack_size := c.stack_size + 1
      PC := NNN } 0x00EE := hret
  have step2 : execute_instruction rnd2 { c with
      stack := store c.stack c.stack_size.toNat (c.PC + 2)
      stack_size := c.stack_size + 1
      PC := NNN } = some { c with
      stack := store c.stack c.stack_size.toNat (c.PC + 2)
      stack_size := c.stack_size
      PC := c.PC + 2 } := by
    rw [execute_instruction_eq rnd2 _ _ hpc1]
    simp [execute_opcode, and_255, hs.1, hs.2, store]
  exact ⟨_, _, step1, step2, rfl, rfl⟩

/-- Concrete instance: `2300` at `0x200`, `00EE` at `0x300`. -/
theorem c8_call_return_witness :
    (0x300 < 4096 ∧ (0 ≤ call_machine.stack_size ∧ call_machine.stack_size < 16) ∧
      at_pc call_machine (0x2000 + 0x300) ∧
      (0x300 + 1 < 4096 ∧ instr_at call_machine.ram 0x300 = 0x00EE)) ∧
    ∃ c1 c2, execute_instruction 0 call_machine = some c1 ∧
      execute_instruction 0 c1 = some c2 ∧
      c2.PC = call_machine.PC + 2 ∧ c2.stack_size = call_machine.stack_size :=
  ⟨by decide, c8_call_return 0 0 call_machine 0x300 (by decide) (by decide) (by decide)
    (by decide)⟩

/-! ## Memory transfers `FX33`, `FX55`, `FX65` -/

/-- Claim C9: for every machine state with `I + 2 <= 4095` and every `X`
(`Vx` an 8-bit value), after `FX33` the bytes `ram[I]`, `ram[I+1]`, `ram[I+2]`
are the hundreds, tens and ones decimal digits of `Vx`: each is at most `9`
(`ram[I]` at most `2`) and `100*ram[I] + 10*ram[I+1] + ram[I+2] = Vx`; for
`Vx = 157` they are `1`, `5`, `7`. -/
theorem c9_bcd (rnd : Nat) (c : chip8_t) (X : Nat)
    (hX : X < 16) (hV : c.V X < 256) (hI : c.I + 2 ≤ 4095)
    (hpc : at_pc c (0xF000 + X * 256 + 0x33)) :
    ∃ c', execute_instruction rnd c = some c' ∧
      c'.ram c.I ≤ 2 ∧ c'.ram (c.I + 1) ≤ 9 ∧ c'.ram (c.I + 2) ≤ 9 ∧
      100 * c'.ram c.I + 10 * c'.ram (c.I + 1) + c'.ram (c.I + 2) = c.V X ∧
      (c.V X = 157 → c'.ram c.I = 1 ∧ c'.ram (c.I + 1) = 5 ∧ c'.ram (c.I + 2) = 7) := by
  obtain ⟨d1, d2, d3⟩ := decode_xnn 15 X 0x33 hX (by norm_num)
  rw [execute_instruction_eq rnd c _ hpc]
  have hI' : c.I + 2 < 4096 := by omega
  simp [execute_opcode, d1, d2, d3, hI', store]
  omega

/-- Concrete instance: `F133` with `V1 = 157`. -/
theorem c9_bcd_witness :
    (1 < 16 ∧ bcd_machine.V 1 < 256 ∧ bcd_machine.I + 2 ≤ 4095 ∧
      at_pc bcd_machine (0xF000 + 1 * 256 + 0x33)) ∧
    ∃ c', execute_instruction 0 bcd_machine = some c' ∧
      c'.ram bcd_machine.I ≤ 2 ∧ c'.ram (bcd_machine.I + 1) ≤ 9 ∧
      c'.ram (bcd_machine.I + 2) ≤ 9 ∧
      100 * c'.ram bcd_machine.I + 10 * c'.ram (bcd_machine.I + 1) +
        c'.ram (bcd_machine.I + 2) = bcd_machine.V 1 ∧
      (bcd_machine.V 1 = 157 → c'.ram bcd_machine.I = 1 ∧
        c'.ram (bcd_machine.I + 1) = 5 ∧ c'.ram (bcd_machine.I + 2) = 7) :=
  ⟨by decide, c9_bcd 0 bcd_machine 1 (by decide) (by decide) (by decide) (by decide)⟩

/-- Closed form of the `FX55` loop. -/
theorem store_registers_spec : ∀ (n i hex : Nat) (c : chip8_t), c.I + i + n ≤ 4096 →
    ∃ c', store_registers n i hex c = some c' ∧ c'.V = c.V ∧ c'.I = c.I ∧
      ∀ a, c'.ram a =
        if c.I + i ≤ a ∧ a < c.I + i + n then c.V (hex + (a - (c.I + i))) else c.ram a := by
  intro n
  induction n with
  | zero =>
    intro i hex c _
    refine ⟨c, rfl, rfl, rfl, fun a => ?_⟩
    rw [if_neg (by omega)]
  | succ n ih =>
    intro i hex c hI
    rw [store_registers, if_pos (by omega)]
    obtain ⟨c', e1, e2, e3, e4⟩ :=
      ih (i + 1) (hex + 1) { c with ram := store c.ram (c.I + i) (c.V hex) } (by simpa using by omega)
    refine ⟨c', e1, e2, e3, fun a => ?_⟩
    rw [e4 a]
    simp only [store]
    by_cases ha : a = c.I + i
    · subst ha
      rw [if_neg (by omega), if_pos rfl, if_pos (by omega)]
      congr 1
      omega
    · rw [if_neg ha]
      by_cases hw : c.I + (i + 1) ≤ a ∧ a < c.I + (i + 1) + n
      · rw [if_pos hw, if_pos (by omega)]
        congr 1
        omega
      · rw [if_neg hw, if_neg (by omega)]

/-- Closed form of the `FX65` loop. -/
theorem load_registers_spec : ∀ (n i hex : Nat) (c : chip8_t), c.I + i + n ≤ 4096 →
    ∃ c', load_registers n i hex c = some c' ∧ c'.ram = c.ram ∧ c'.I = c.I ∧
      ∀ r, c'.V r =
        if hex ≤ r ∧ r < hex + n then c.ram (c.I + (i + (r - hex))) else c.V r := by
  intro n
  induction n with
  | zero =>
    intro i hex c _
    refine ⟨c, rfl, rfl, rfl, fun r => ?_⟩
    rw [if_neg (by omega)]
  | succ n ih =>
    intro i hex c hI
    rw [load_registers, if_pos (by omega)]
    obtain ⟨c', e1, e2, e3, e4⟩ :=
      ih (i + 1) (hex + 1) { c with V := store c.V hex (c.ram (c.I + i)) } (by simpa using by omega)
    refine ⟨c', e1, e2, e3, fun r => ?_⟩
    rw [e4 r]
    simp only [store]
    by_cases hr : r = hex
    · subst hr
      rw [if_neg (by omega), if_pos rfl, if_pos (by omega)]
      congr 2
      omega
    · rw [if_neg hr]
      by_cases hw : hex + 1 ≤ r ∧ r < hex + 1 + n
      · rw [if_pos hw, if_pos (by omega)]
        congr 2
        omega
      · rw [if_neg hw, if_neg (by omega)]

/-- Claim C10: for every `X` in `0..15` and every machine state with
`I + X <= 4095`, executing `FX55`, then overwriting registers with arbitrary
values (`ram` and `I` unchanged), then executing `FX65` makes `V0..VX` equal to
the values they held before `FX55`, and `FX65` leaves the registers above `VX`
untouched. -/
theorem c10_store_load (rnd rnd2 : Nat) (c : chip8_t) (X : Nat)
    (hX : X < 16) (hI : c.I + X ≤ 4095)
    (hpc : at_pc c (0xF000 + X * 256 + 0x55)) :
    ∃ c1, execute_instruction rnd c = some c1 ∧
      ∀ d : chip8_t, d.ram = c1.ram → d.I = c.I → at_pc d (0xF000 + X * 256 + 0x65) →
        ∃ d', execute_instruction rnd2 d = some d' ∧
          (∀ i, i ≤ X → d'.V i = c.V i) ∧ (∀ i, X < i → d'.V i = d.V i) := by
  obtain ⟨a1, a2, a3⟩ := decode_xnn 15 X 0x55 hX (by norm_num)
  obtain ⟨b1, b2, b3⟩ := decode_xnn 15 X 0x65 hX (by norm_num)
  obtain ⟨c1, e1, e2, e3, e4⟩ :=
    store_registers_spec (X + 1) 0 0 { c with PC := (c.PC + 2) % 65536 } (by simpa using by omega)
  have h1 : execute_instruction rnd c = some c1 := by
    rw [execute_instruction_eq rnd c _ hpc]
    simpa [execute_opcode, a1, a2, a3] using e1
  refine ⟨c1, h1, fun d hram hIeq hpcd => ?_⟩
  obtain ⟨d', g1, g2, g3, g4⟩ :=
    load_registers_spec (X + 1) 0 0 { d with PC := (d.PC + 2) % 65536 }
      (by simpa [hIeq] using by omega)
  have h2 : execute_instruction rnd2 d = some d' := by
    rw [execute_instruction_eq rnd2 d _ hpcd]
    simpa [execute_opcode, b1, b2, b3] using g1
  refine ⟨d', h2, fun i hi => ?_, fun i hi => ?_⟩
  · rw [g4 i, if_pos (by omega)]
    simp only [hram, hIeq]
    rw [e4, if_pos (by simp; omega)]
    simp
  · rw [g4 i, if_neg (by omega)]

/-- Concrete instance: `F355` on `memory_machine`, every register cleared, then
`F365`; both steps return. -/
theorem c10_store_load_witness :
    (3 < 16 ∧ memory_machine.I + 3 ≤ 4095 ∧
      at_pc memory_machine (0xF000 + 3 * 256 + 0x55)) ∧
    ∃ c1, execute_instruction 0 memory_machine = some c1 ∧
      at_pc { c1 with V := fun _ => 0 } (0xF000 + 3 * 256 + 0x65) ∧
      ∃ d', execute_instruction 0 { c1 with V := fun _ => 0 } = some d' ∧
        (∀ i, i ≤ 3 → d'.V i = memory_machine.V i) ∧
        (∀ i, 3 < i → d'.V i = 0) := by
  refine ⟨by decide, ?_⟩
  obtain ⟨c1, h1, h⟩ := c10_store_load 0 0 memory_machine 3 (by decide) (by decide) (by decide)
  have e : c1 = memory_machine_1 := by
    have h0 : execute_instruction 0 memory_machine = some memory_machine_1 := rfl
    rw [h0] at h1
    exact (Option.some.inj h1).symm
  subst e
  have hpc2 : at_pc { memory_machine_1 with V := fun _ => 0 } (0xF000 + 3 * 256 + 0x65) := by
    decide
  exact ⟨_, h1, hpc2, h _ rfl rfl hpc2⟩

/-! ## Timers -/

theorem update_timers_fields (c : chip8_t) :
    (update_timers c).1.delay_timer = c.delay_timer - 1 ∧
    (update_timers c).1.sound_timer = c.sound_timer - 1 := by
  unfold update_timers
  by_cases hd : c.delay_timer > 0 <;> by_cases hs : c.sound_timer > 0 <;>
    simp [hd, hs] <;> omega

theorem update_timers_n_fields : ∀ (n : Nat) (c : chip8_t),
    (update_timers_n n c).delay_timer = c.delay_timer - n ∧
    (update_timers_n n c).sound_timer = c.sound_timer - n := by
  intro n
  induction n with
  | zero => intro c; exact ⟨rfl, rfl⟩
  | succ n ih =>
    intro c
    obtain ⟨h1, h2⟩ := ih (update_timers c).1
    obtain ⟨g1, g2⟩ := update_timers_fields c
    rw [update_timers_n, h1, h2, g1, g2]
    omega

/-- Claim C11: for every initial `delay_timer` value `d` and `sound_timer`
value `s` and every `n >= 0`, after `n` calls of `update_timers`
`delay_timer = max(d - n, 0)` and `sound_timer = max(s - n, 0)`; with `d = 5`
the delay timer reads `0` after the 5th tick and after the 6th. -/
theorem c11_timers (c : chip8_t) (n : Nat) :
    ((update_timers_n n c).delay_timer : Int) = max ((c.delay_timer : Int) - n) 0 ∧
    ((update_timers_n n c).sound_timer : Int) = max ((c.sound_timer : Int) - n) 0 ∧
    (c.delay_timer = 5 →
      (update_timers_n 5 c).delay_timer = 0 ∧ (update_timers_n 6 c).delay_timer = 0) := by
  obtain ⟨h1, h2⟩ := update_timers_n_fields n c
  refine ⟨?_, ?_, fun h5 => ?_⟩
  · rw [h1]; omega
  · rw [h2]; omega
  · rw [(update_timers_n_fields 5 c).1, (update_timers_n_fields 6 c).1, h5]
    exact ⟨rfl, rfl⟩

/-! ## Wait for key `FX0A` -/

theorem scan_keypad_none : ∀ (n i : Nat) (c : chip8_t),
    (∀ j, i ≤ j → j < i + n → c.keypad j = false) → scan_keypad n i c = c := by
  intro n
  induction n with
  | zero => intro i c _; rfl
  | succ n ih =>
    intro i c h
    rw [scan_keypad]
    by_cases hk : c.key = 0xFF
    · rw [if_pos hk, h i (le_refl _) (by omega)]
      simp only [Bool.false_eq_true, if_false]
      exact ih (i + 1) c (fun j h1 h2 => h j (by omega) (by omega))
    · rw [if_neg hk]

theorem scan_keypad_first : ∀ (n i : Nat) (c : chip8_t) (k : Nat),
    c.key = 0xFF → i ≤ k → k < i + n → c.keypad k = true →
    (∀ j, i ≤ j → j < k → c.keypad j = false) →
    scan_keypad n i c = { c with key := k, key_press := true } := by
  intro n
  induction n with
  | zero => intro i c k _ h1 h2; omega
  | succ n ih =>
    intro i c k hkey h1 h2 hk hlow
    rw [scan_keypad, if_pos hkey]
    by_cases hik : i = k
    · subst hik
      rw [if_pos hk]
    · rw [hlow i (le_refl _) (by omega)]
      simp only [Bool.false_eq_true, if_false]
      exact ih (i + 1) c k hkey (by omega) (by omega) hk (fun j h3 h4 => hlow j (by omega) h4)

theorem scan_keypad_latched (n i : Nat) (c : chip8_t) (h : c.key ≠ 0xFF) :
    scan_keypad n i c = c := by
  cases n with
  | zero => rfl
  | succ n => rw [scan_keypad, if_neg h]

theorem pc_back (p : Nat) (h : p + 1 < 4096) :
    to_u16 ((((p + 2) % 65536 : Nat) : Int) - 2) = p := by
  unfold to_u16
  omega

/-- `FX0A` with an idle latch and no key pressed leaves the whole state as it was. -/
theorem fx0a_idle (rnd : Nat) (c : chip8_t) (X : Nat) (hX : X < 16)
    (hidle : c.key_press = false ∧ c.key = 0xFF)
    (hkeys : ∀ i, i < 16 → c.keypad i = false)
    (hpc : at_pc c (0xF000 + X * 256 + 0x0A)) :
    execute_instruction rnd c = some c := by
  obtain ⟨d1, d2, d3⟩ := decode_xnn 15 X 0x0A hX (by norm_num)
  rw [execute_instruction_eq rnd c _ hpc]
  have hp : to_u16 ((((c.PC + 2) % 65536 : Nat) : Int) - 2) = c.PC := pc_back c.PC hpc.1
  rcases c with ⟨ram, display, stack, stack_size, V, I, dt, st, PC, keypad, state, volume,
    key_press, key⟩
  simp only at hidle hp hkeys
  obtain ⟨rfl, rfl⟩ := hidle
  have hs := scan_keypad_none 16 0
    { ram := ram, display := display, stack := stack, stack_size := stack_size, V := V, I := I,
      delay_timer := dt, sound_timer := st, PC := (PC + 2) % 65536, keypad := keypad,
      state := state, volume := volume, key_press := false, key := 255 }
    (fun j _ h => hkeys j (by omega))
  simp [execute_opcode, d1, d2, d3, hs]
  exact_mod_cast hp

/-- Claim C12: for every machine state whose key latch is idle and in which no
keypad line is pressed, executing `FX0A` any number of times in a row returns
the very same machine state: `PC` is the address of the `FX0A` instruction and
every register, `I`, memory, display and the latch are unchanged. -/
theorem c12_wait_idle (rnd : Nat → Nat) (c : chip8_t) (X : Nat) (hX : X < 16)
    (hidle : c.key_press = false ∧ c.key = 0xFF)
    (hkeys : ∀ i, i < 16 → c.keypad i = false)
    (hpc : at_pc c (0xF000 + X * 256 + 0x0A)) :
    ∀ n, run_instructions rnd n c = some c := by
  intro n
  induction n with
  | zero => rfl
  | succ n ih =>
    rw [run_instructions, fx0a_idle (rnd n) c X hX hidle hkeys hpc]
    exact ih


/-- Concrete instance: `F10A` on a zeroed machine with no key pressed. -/
theorem c12_wait_idle_witness :
    (1 < 16 ∧
      ((machine 0xF10A (fun _ => 0)).key_press = false ∧
        (machine 0xF10A (fun _ => 0)).key = 0xFF) ∧
      (∀ i, i < 16 → (machine 0xF10A (fun _ => 0)).keypad i = false) ∧
      at_pc (machine 0xF10A (fun _ => 0)) (0xF000 + 1 * 256 + 0x0A)) ∧
    ∀ n, run_instructions (fun _ => 0) n (machine 0xF10A (fun _ => 0)) =
      some (machine 0xF10A (fun _ => 0)) :=
  ⟨by decide, c12_wait_idle (fun _ => 0) (machine 0xF10A (fun _ => 0)) 1 (by decide)
    (by decide) (by decide) (by decide)⟩

/-- First `FX0A` cycle with an idle latch: the lowest pressed key is captured. -/
theorem fx0a_capture (rnd : Nat) (c : chip8_t) (X k : Nat) (hX : X < 16)
    (hidle : c.key_press = false ∧ c.key = 0xFF)
    (hk : k < 16) (hkp : c.keypad k = true) (hlow : ∀ i, i < k → c.keypad i = false)
    (hpc : at_pc c (0xF000 + X * 256 + 0x0A)) :
    execute_instruction rnd c = some { c with key := k, key_press := true } := by
  obtain ⟨d1, d2, d3⟩ := decode_xnn 15 X 0x0A hX (by norm_num)
  rw [execute_instruction_eq rnd c _ hpc]
  have hp : to_u16 ((((c.PC + 2) % 65536 : Nat) : Int) - 2) = c.PC := pc_back c.PC hpc.1
  rcases c with ⟨ram, display, stack, stack_size, V, I, dt, st, PC, keypad, state, volume,
    key_press, key⟩
  simp only at hidle hp hkp hlow
  obtain ⟨rfl, rfl⟩ := hidle
  have hs := scan_keypad_first 16 0
    { ram := ram, display := display, stack := stack, stack_size := stack_size, V := V, I := I,
      delay_timer := dt, sound_timer := st, PC := (PC + 2) % 65536, keypad := keypad,
      state := state, volume := volume, key_press := false, key := 255 }
    k rfl (Nat.zero_le _) (by omega) hkp (fun j _ h => hlow j h)
  simp [execute_opcode, d1, d2, d3, hs, hk, hkp]
  exact_mod_cast hp

/-- `FX0A` cycle with a captured key that is still pressed: nothing changes. -/
theorem fx0a_held (rnd : Nat) (c : chip8_t) (X k : Nat) (hX : X < 16)
    (hlatch : c.key_press = true ∧ c.key = k)
    (hk : k < 16) (hkp : c.keypad k = true)
    (hpc : at_pc c (0xF000 + X * 256 + 0x0A)) :
    execute_instruction rnd c = some c := by
  obtain ⟨d1, d2, d3⟩ := decode_xnn 15 X 0x0A hX (by norm_num)
  rw [execute_instruction_eq rnd c _ hpc]
  have hp : to_u16 ((((c.PC + 2) % 65536 : Nat) : Int) - 2) = c.PC := pc_back c.PC hpc.1
  rcases c with ⟨ram, display, stack, stack_size, V, I, dt, st, PC, keypad, state, volume,
    key_press, key⟩
  simp only at hlatch hp hkp
  obtain ⟨rfl, rfl⟩ := hlatch
  have hs := scan_keypad_latched 16 0
    { ram := ram, display := display, stack := stack, stack_size := stack_size, V := V, I := I,
      delay_timer := dt, sound_timer := st, PC := (PC + 2) % 65536, keypad := keypad,
      state := state, volume := volume, key_press := true, key := key }
    (by simp only; omega)
  simp [execute_opcode, d1, d2, d3, hs, hk, hkp]
  exact_mod_cast hp

/-- `FX0A` cycle with a captured key that has been released. -/
theorem fx0a_release (rnd : Nat) (c : chip8_t) (X k : Nat) (hX : X < 16)
    (hlatch : c.key_press = true ∧ c.key = k)
    (hk : k < 16) (hkp : c.keypad k = false)
    (hpc : at_pc c (0xF000 + X * 256 + 0x0A)) :
    execute_instruction rnd c = some { c with
      PC := c.PC + 2, V := store c.V X k, key := 0xFF, key_press := false } := by
  obtain ⟨d1, d2, d3⟩ := decode_xnn 15 X 0x0A hX (by norm_num)
  rw [execute_instruction_eq rnd c _ hpc]
  have hp : (c.PC + 2) % 65536 = c.PC + 2 := Nat.mod_eq_of_lt (by have := hpc.1; omega)
  rcases c with ⟨ram, display, stack, stack_size, V, I, dt, st, PC, keypad, state, volume,
    key_press, key⟩
  simp only at hlatch hp hkp
  obtain ⟨rfl, rfl⟩ := hlatch
  have hs := scan_keypad_latched 16 0
    { ram := ram, display := display, stack := stack, stack_size := stack_size, V := V, I := I,
      delay_timer := dt, sound_timer := st, PC := (PC + 2) % 65536, keypad := keypad,
      state := state, volume := volume, key_press := true, key := key }
    (by simp only; omega)
  rw [hp] at hs
  simp [execute_opcode, d1, d2, d3, hs, hk, hkp, hp]

/-- Cycles during which the captured key stays pressed. -/
theorem run_cycles_held (rnd : Nat) (X k : Nat) (hX : X < 16) (hk : k < 16) :
    ∀ (kps : List (Nat → Bool)) (c : chip8_t),
      (∀ kp ∈ kps, kp k = true) → c.key_press = true → c.key = k →
      at_pc c (0xF000 + X * 256 + 0x0A) →
      ∃ c2, run_cycles rnd kps c = some c2 ∧ c2.ram = c.ram ∧ c2.PC = c.PC ∧ c2.V = c.V ∧
        c2.key_press = true ∧ c2.key = k := by
  intro kps
  induction kps with
  | nil => intro c _ h1 h2 _; exact ⟨c, rfl, rfl, rfl, rfl, h1, h2⟩
  | cons kp rest ih =>
    intro c hall h1 h2 hpc
    rw [run_cycles, fx0a_held rnd { c with keypad := kp } X k hX ⟨h1, h2⟩ hk
      (hall kp (List.mem_cons_self _ _)) hpc]
    exact ih { c with keypad := kp } (fun kp' h => hall kp' (List.mem_cons_of_mem _ h)) h1 h2 hpc

/-- Claim C13: starting from an idle key latch with at least one key pressed,
an `FX0A` cycle captures `k`, the lowest-indexed pressed key, and leaves `PC` on
the `FX0A` instruction; every later run of `FX0A` cycles in which `keypad[k]`
is pressed (whatever the other keys) leaves `PC` on the instruction and the
registers unchanged; the first cycle in which `keypad[k]` is released writes
`k` into `Vx`, returns the latch to idle and leaves `PC` at the instruction's
address `+ 2`. -/
theorem c13_wait_key (rnd : Nat) (c : chip8_t) (X k : Nat) (hX : X < 16)
    (hidle : c.key_press = false ∧ c.key = 0xFF)
    (hk : k < 16) (hkp : c.keypad k = true) (hlow : ∀ i, i < k → c.keypad i = false)
    (hpc : at_pc c (0xF000 + X * 256 + 0x0A)) :
    ∃ c1, execute_instruction rnd c = some c1 ∧
      c1.PC = c.PC ∧ c1.V = c.V ∧ c1.key_press = true ∧ c1.key = k ∧
      ∀ kps : List (Nat → Bool), (∀ kp ∈ kps, kp k = true) →
        ∃ c2, run_cycles rnd kps c1 = some c2 ∧
          c2.PC = c.PC ∧ c2.V = c.V ∧ c2.key_press = true ∧ c2.key = k ∧
          ∀ kp : Nat → Bool, kp k = false →
            ∃ c3, execute_instruction rnd { c2 with keypad := kp } = some c3 ∧
              c3.V X = k ∧ (∀ i, i ≠ X → c3.V i = c.V i) ∧
              c3.key_press = false ∧ c3.key = 0xFF ∧ c3.PC = c.PC + 2 := by
  refine ⟨_, fx0a_capture rnd c X k hX hidle hk hkp hlow hpc, rfl, rfl, rfl, rfl, fun kps hall => ?_⟩
  obtain ⟨c2, h2, e1, e2, e3, e4, e5⟩ :=
    run_cycles_held rnd X k hX hk kps { c with key := k, key_press := true } hall rfl rfl hpc
  refine ⟨c2, h2, e2, e3, e4, e5, fun kp hrel => ?_⟩
  have hpc2 : at_pc { c2 with keypad := kp } (0xF000 + X * 256 + 0x0A) := by
    unfold at_pc at hpc ⊢
    simp only [e1, e2]
    exact hpc
  refine ⟨_, fx0a_release rnd { c2 with keypad := kp } X k hX ⟨e4, e5⟩ hk hrel hpc2, ?_, ?_, rfl, rfl, ?_⟩
  · simp [store]
  · intro i hi
    simp [store, hi, e3]
  · simp [e2]

/-- Concrete instance: `F10A` with keys `3` and `7` pressed captures key `3`. -/
theorem c13_wait_key_witness :
    (1 < 16 ∧ (key_machine.key_press = false ∧ key_machine.key = 0xFF) ∧ 3 < 16 ∧
      key_machine.keypad 3 = true ∧ (∀ i, i < 3 → key_machine.keypad i = false) ∧
      at_pc key_machine (0xF000 + 1 * 256 + 0x0A)) ∧
    ∃ c1, execute_instruction 0 key_machine = some c1 ∧
      c1.PC = key_machine.PC ∧ c1.V = key_machine.V ∧ c1.key_press = true ∧ c1.key = 3 ∧
      ∀ kps : List (Nat → Bool), (∀ kp ∈ kps, kp 3 = true) →
        ∃ c2, run_cycles 0 kps c1 = some c2 ∧
          c2.PC = key_machine.PC ∧ c2.V = key_machine.V ∧ c2.key_press = true ∧ c2.key = 3 ∧
          ∀ kp : Nat → Bool, kp 3 = false →
            ∃ c3, execute_instruction 0 { c2 with keypad := kp } = some c3 ∧
              c3.V 1 = 3 ∧ (∀ i, i ≠ 1 → c3.V i = key_machine.V i) ∧
              c3.key_press = false ∧ c3.key = 0xFF ∧ c3.PC = key_machine.PC + 2 :=
  ⟨by decide, c13_wait_key 0 key_machine 1 3 (by decide) (by decide) (by decide) (by decide)
    (by decide) (by decide)⟩

/-! ## Loading the program image -/

/-- Claim C14: for every ROM image that can be opened and read (`fread`
delivers all `rom_size` bytes), `initialize_chip8` fails (returns `false`) if
and only if the image is longer than `4096 - 0x200 = 3584` bytes; an image of
exactly `3584` bytes is accepted. -/
theorem c14_rom_size (chip8 : chip8_t) (f : rom_file)
    (hread : f.contents.length = f.rom_size) :
    ((initialize_chip8 chip8 (some f)).1 = false ↔ f.rom_size > 3584) ∧
    (f.rom_size = 3584 → (initialize_chip8 chip8 (some f)).1 = true) ∧
    4096 - 0x200 = 3584 := by
  have hlen : (f.contents.take f.rom_size).length = f.rom_size := by
    rw [List.length_take, hread]; simp
  have hiff : (initialize_chip8 chip8 (some f)).1 = false ↔ f.rom_size > 3584 := by
    by_cases hs : f.rom_size > 3584
    · simp [initialize_chip8, hs]
    · simp [initialize_chip8, hs, hlen]
  refine ⟨hiff, fun h => ?_, rfl⟩
  cases hb : (initialize_chip8 chip8 (some f)).1
  · have := hiff.mp hb
    omega
  · rfl

example : (initialize_chip8 chip8_zero none).1 = false := by decide
example : (main none [([], fun _ => 0)]).map (fun s => s.1.PC) = some 0x210 := by decide
/-- Concrete instance: a two-byte image. -/
theorem c14_rom_size_witness :
    (rom_file.mk 2 [0x12, 0x00]).contents.length = (rom_file.mk 2 [0x12, 0x00]).rom_size ∧
    (((initialize_chip8 chip8_zero (some (rom_file.mk 2 [0x12, 0x00]))).1 = false ↔
        (rom_file.mk 2 [0x12, 0x00]).rom_size > 3584) ∧
      ((rom_file.mk 2 [0x12, 0x00]).rom_size = 3584 →
        (initialize_chip8 chip8_zero (some (rom_file.mk 2 [0x12, 0x00]))).1 = true) ∧
      4096 - 0x200 = 3584) :=
  ⟨by decide, c14_rom_size chip8_zero (rom_file.mk 2 [0x12, 0x00]) (by decide)⟩

/-! ## Accesses out of range -/

/-- Claim C15 fails on the code: with `stack_size = 16` the store
`stack[stack_size++]` of `2NNN` has index `16`, outside `stack[0..15]`; the
step has no in-range outcome (the call is neither dropped nor is a frame
evicted). -/
theorem c15_full_stack_call :
    full_stack_machine.stack_size = 16 ∧ at_pc full_stack_machine 0x2300 ∧
    execute_instruction 0 full_stack_machine = none :=
  ⟨by decide, by decide, rfl⟩

/-- Claim C16 fails on the code: with `stack_size = 0` the load
`stack[stack_size - 1]` of `00EE` has index `-1`, outside `stack[0..15]`; the
step has no in-range outcome. -/
theorem c16_empty_stack_return :
    empty_stack_machine.stack_size = 0 ∧ at_pc empty_stack_machine 0x00EE ∧
    execute_instruction 0 empty_stack_machine = none :=
  ⟨by decide, by decide, rfl⟩

/-- Claim C18 fails on the code: with `PC = 0x200` and `stack_size = 1`,
`E09E` with `V0 = 16` reads `keypad[16]` and `F155` with `I = 0xFFF` writes
`ram[4096]`; neither step has an in-range outcome. -/
theorem c18_out_of_range :
    (key_index_machine.PC ≤ 0xFFE ∧ key_index_machine.stack_size = 1 ∧
      at_pc key_index_machine 0xE09E ∧ key_index_machine.V 0 = 16 ∧
      execute_instruction 0 key_index_machine = none) ∧
    (ram_end_machine.PC ≤ 0xFFE ∧ ram_end_machine.stack_size = 1 ∧
      at_pc ram_end_machine 0xF155 ∧ ram_end_machine.I + 1 = 4096 ∧
      execute_instruction 0 ram_end_machine = none) :=
  ⟨⟨by decide, by decide, by decide, by decide, rfl⟩,
    ⟨by decide, by decide, by decide, by decide, rfl⟩⟩

/-! ## Opcodes outside the semantic table -/

/-- Claim C17 as stated fails: `5011` with `V0 = V1` and `9011` with
`V0 != V1` skip (`PC = 0x204`, not `0x202`), and `01E0` clears a lit display. -/
theorem c17_counterexample :
    (execute_instruction 0 (machine 0x5011 (fun _ => 0))).map (fun c => c.PC) = some 0x204 ∧
    (execute_instruction 0 (machine 0x9011 regs_f5)).map (fun c => c.PC) = some 0x204 ∧
    lit_machine.display 0 = true ∧
    (execute_instruction 0 lit_machine).map (fun c => c.display 0) = some false := by
  decide

/-- Claim C17 (amended): for every 16-bit opcode that reaches a `default`
label of the dispatch (every word outside the 35 patterns other than `5XYN`,
`9XYN` with `N != 0` and `0XE0`, `0XEE` with `X != 0`), `execute_instruction`
is a no-op: apart from the `PC` advance of 2 done by the fetch, every field of
the machine state is unchanged. -/
theorem c17_unhandled_noop (rnd : Nat) (c : chip8_t) (opcode : Nat)
    (hpc : at_pc c opcode) (hun : unhandled opcode) :
    execute_instruction rnd c = some { c with PC := c.PC + 2 } := by
  rw [execute_instruction_eq rnd c _ hpc]
  have hp : (c.PC + 2) % 65536 = c.PC + 2 := Nat.mod_eq_of_lt (by have := hpc.1; omega)
  rcases hun with ⟨h1, h2, h3⟩ | ⟨h1, h2, h3⟩ | ⟨h1, h2, h3⟩ |
    ⟨h1, h2, h3, h4, h5, h6, h7, h8, h9, h10⟩
  · simp [execute_opcode, h1, h2, h3, hp]
  · have e : ∀ k, k ≤ 7 → opcode &&& 15 ≠ k := fun k hk => by omega
    simp [execute_opcode, h1, h3, hp, e]
  · simp [execute_opcode, h1, h2, h3, hp]
  · simp [execute_opcode, h1, h2, h3, h4, h5, h6, h7, h8, h9, h10, hp]

/-- Concrete instance: `8128`. -/
theorem c17_unhandled_noop_witness :
    (at_pc (machine 0x8128 regs_12) 0x8128 ∧ unhandled 0x8128) ∧
    execute_instruction 0 (machine 0x8128 regs_12) =
      some { machine 0x8128 regs_12 with PC := (machine 0x8128 regs_12).PC + 2 } :=
  ⟨by decide, c17_unhandled_noop 0 (machine 0x8128 regs_12) 0x8128 (by decide) (by decide)⟩

/-! ## Session start -/

/-- Claim C20 fails on the code: `main` does not use the value returned by
`initialize_chip8`; after a failed load (missing ROM, or a ROM of 3585 bytes)
the first frame of the game loop runs `500 / 60 = 8` instructions on the
machine state, moving `PC` from `0x200` to `0x210`. -/
theorem c20_failed_load_runs :
    (initialize_chip8 chip8_zero none).1 = false ∧
    (initialize_chip8 chip8_zero none).2.PC = 0x200 ∧
    main none [([], fun _ => 0)] =
      (run_instructions (fun _ => 0) 8 (initialize_chip8 chip8_zero none).2).map update_timers ∧
    (main none [([], fun _ => 0)]).map (fun s => s.1.PC) = some 0x210 ∧
    (initialize_chip8 chip8_zero (some ⟨3585, List.replicate 3585 0⟩)).1 = false ∧
    (main (some ⟨3585, List.replicate 3585 0⟩) [([], fun _ => 0)]).map (fun s => s.1.PC) =
      some 0x210 :=
  ⟨by decide, by decide, rfl, by decide, by decide, by decide⟩

/-! ## Writes to `ram` -/

theorem draw_rows_ram (x0 : Nat) : ∀ (n j y : Nat) (c c' : chip8_t),
    draw_rows x0 n j y c = some c' → c'.ram = c.ram := by
  intro n
  induction n with
  | zero =>
    intro j y c c' h
    rw [draw_rows] at h
    cases h; rfl
  | succ n ih =>
    intro j y c c' h
    rw [draw_rows] at h
    by_cases hI : c.I + j < 4096
    · rw [if_pos hI] at h
      by_cases hy : y + 1 ≥ SCREEN_HEIGHT
      · simp only [hy, if_true] at h
        cases h
        exact (draw_bits_frame _ _ _ _ _).1
      · simp only [hy, if_false] at h
        rw [ih _ _ _ _ h]
        exact (draw_bits_frame _ _ _ _ _).1
    · rw [if_neg hI] at h
      cases h

theorem scan_keypad_ram : ∀ (n i : Nat) (c : chip8_t), (scan_keypad n i c).ram = c.ram := by
  intro n
  induction n with
  | zero => intro i c; rfl
  | succ n ih =>
    intro i c
    rw [scan_keypad]
    by_cases hk : c.key = 0xFF
    · rw [if_pos hk]
      by_cases hp : c.keypad i = true
      · rw [if_pos hp]
      · rw [if_neg hp]; exact ih _ _
    · rw [if_neg hk]

theorem load_registers_ram : ∀ (n i hex : Nat) (c c' : chip8_t),
    load_registers n i hex c = some c' → c'.ram = c.ram := by
  intro n
  induction n with
  | zero =>
    intro i hex c c' h
    rw [load_registers] at h
    cases h; rfl
  | succ n ih =>
    intro i hex c c' h
    rw [load_registers] at h
    by_cases hI : c.I + i < 4096
    · rw [if_pos hI] at h
      have e := ih _ _ _ _ h
      exact e
    · rw [if_neg hI] at h
      cases h

theorem store_registers_below : ∀ (n i hex : Nat) (c c' : chip8_t),
    store_registers n i hex c = some c' → ∀ a, a < c.I + i → c'.ram a = c.ram a := by
  intro n
  induction n with
  | zero =>
    intro i hex c c' h a _
    rw [store_registers] at h
    cases h; rfl
  | succ n ih =>
    intro i hex c c' h a ha
    rw [store_registers] at h
    by_cases hI : c.I + i < 4096
    · rw [if_pos hI] at h
      rw [ih _ _ _ _ h a (by simpa using by omega)]
      simp only [store]
      rw [if_neg (by omega)]
    · rw [if_neg hI] at h
      cases h

/-- Case split of a frame property over an `if`. -/
theorem ite_frame {α : Type} (f : chip8_t → α) (c : chip8_t) {p : Prop} [Decidable p]
    {a b : Option chip8_t}
    (ha : p → ∀ c', a = some c' → f c' = f c) (hb : ¬ p → ∀ c', b = some c' → f c' = f c) :
    ∀ c', (if p then a else b) = some c' → f c' = f c := by
  by_cases hp : p
  · rw [if_pos hp]; exact ha hp
  · rw [if_neg hp]; exact hb hp

/-- Every opcode other than `FX33` and `FX55` leaves `ram` as it was. -/
theorem execute_opcode_ram (rnd opcode : Nat) (c : chip8_t)
    (hnot : ¬ (opcode >>> 12 = 0xF ∧ (opcode &&& 0xFF = 0x33 ∨ opcode &&& 0xFF = 0x55))) :
    ∀ c', execute_opcode rnd opcode c = some c' → c'.ram = c.ram := by
  unfold execute_opcode
  dsimp only
  repeat' (apply ite_frame chip8_t.ram c <;> intro _)
  all_goals
    first
    | (intro c' h; cases h; rfl)
    | (intro c' h; cases h; done)
    | (intro c' h; have e := draw_rows_ram _ _ _ _ _ _ h; exact e)
    | (intro c' h; have e := load_registers_ram _ _ _ _ _ h; exact e)
    | (intro c' h; cases h; exact scan_keypad_ram _ _ _)
    | (exact absurd ⟨‹opcode >>> 12 = 15›, Or.inl ‹opcode &&& 255 = 51›⟩ hnot)
    | (exact absurd ⟨‹opcode >>> 12 = 15›, Or.inr ‹opcode &&& 255 = 85›⟩ hnot)


set_option maxRecDepth 8000 in
/-- Claim C19 as stated fails: with the font table in `ram` and `I = 0`, `F033`
and `F055` (with `V0 = 0`) overwrite `ram[0] = 0xF0` with `0`. -/
theorem c19_counterexample :
    holds_font (font_machine 0xF033 0).ram ∧ holds_font (font_machine 0xF055 0).ram ∧
    font.getD 0 0 = 0xF0 ∧
    (execute_instruction 0 (font_machine 0xF033 0)).map (fun c => c.ram 0) = some 0 ∧
    (execute_instruction 0 (font_machine 0xF055 0)).map (fun c => c.ram 0) = some 0 := by
  decide

/-- Claim C19 (amended): for every machine state in which `ram[0x000..0x04F]`
holds the font table and every opcode other than `FX33` and `FX55`, and for
`FX33` and `FX55` when `I >= 0x050`, `ram[0x000..0x04F]` still holds the font
table after `execute_instruction`. -/
theorem c19_font_kept (rnd : Nat) (c c' : chip8_t) (opcode : Nat)
    (hfont : holds_font c.ram) (hpc : at_pc c opcode)
    (hsafe : (opcode >>> 12 = 0xF ∧ (opcode &&& 0xFF = 0x33 ∨ opcode &&& 0xFF = 0x55)) →
      0x50 ≤ c.I)
    (hex : execute_instruction rnd c = some c') :
    holds_font c'.ram := by
  rw [execute_instruction_eq rnd c _ hpc] at hex
  have hlow : ∀ a, a < 80 → c'.ram a = c.ram a := by
    by_cases hmem : opcode >>> 12 = 0xF ∧ (opcode &&& 0xFF = 0x33 ∨ opcode &&& 0xFF = 0x55)
    · have hI := hsafe hmem
      obtain ⟨h15, h33 | h55⟩ := hmem
      · intro a ha
        simp [execute_opcode, h15, h33] at hex
        obtain ⟨-, rfl⟩ := hex
        simp only [store]
        rw [if_neg (by omega), if_neg (by omega), if_neg (by omega)]
      · intro a ha
        simp [execute_opcode, h15, h55] at hex
        exact store_registers_below _ _ _ _ _ hex a (by simpa using by omega)
    · intro a _
      have e := execute_opcode_ram rnd opcode _ hmem c' hex
      rw [e]
  intro a ha
  rw [hlow a ha]
  exact hfont a ha

set_option maxRecDepth 8000 in
/-- Concrete instance: `F033` with `I = 0x300` on a machine holding the font. -/
theorem c19_font_kept_witness :
    (holds_font (font_machine 0xF033 0x300).ram ∧ at_pc (font_machine 0xF033 0x300) 0xF033 ∧
      ((0xF033 >>> 12 = 0xF ∧ (0xF033 &&& 0xFF = 0x33 ∨ 0xF033 &&& 0xFF = 0x55)) →
        0x50 ≤ (font_machine 0xF033 0x300).I) ∧
      execute_instruction 0 (font_machine 0xF033 0x300) = some font_machine_1) ∧
    holds_font font_machine_1.ram :=
  ⟨⟨by decide, by decide, by decide, rfl⟩,
    c19_font_kept 0 (font_machine 0xF033 0x300) font_machine_1 0xF033 (by decide) (by decide)
      (by decide) rfl⟩

/-! ## The `DEBUG` build -/

/-- Claim C21 fails on the code: for `8127` with `V1 = 1`, `V2 = 3` the build
without `DEBUG` leaves `V1 = 3 - 1 = 2`, while with `DEBUG` the call of
`print_debugging` first stores `V2` into `V1` (the `printf` argument
`chip8->V[X] = chip8->V[Y]`), so the step leaves `V1 = 3 - 3 = 0`. -/
theorem c21_debug_differs :
    at_pc (machine 0x8127 regs_13) 0x8127 ∧
    (execute_instruction 0 (machine 0x8127 regs_13)).map (fun c => c.V 1) = some 2 ∧
    (execute_instruction_debug 0 (machine 0x8127 regs_13)).map (fun c => c.V 1) = some 0 ∧
    (print_debugging 0x8127 (machine 0x8127 regs_13)).map (fun c => c.V 1) = some 3 ∧
    (machine 0x8127 regs_13).V 1 = 1 := by
  decide

/-! ## Display frame -/

/-- Claim C22: for every machine state, after `00E0` every one of the `64*32`
display pixels is false, and apart from the display and the `PC` advance of 2
no field of the machine state changes. -/
theorem c22_clear (rnd : Nat) (c : chip8_t) (hpc : at_pc c 0x00E0) :
    ∃ c', execute_instruction rnd c = some c' ∧
      (∀ x y, x < 64 → y < 32 → c'.display (y * 64 + x) = false) ∧
      c' = { c with PC := c.PC + 2, display := c'.display } := by
  have hp : (c.PC + 2) % 65536 = c.PC + 2 := Nat.mod_eq_of_lt (by have := hpc.1; omega)
  rw [execute_instruction_eq rnd c _ hpc]
  refine ⟨{ c with PC := c.PC + 2, display := fun _ => false }, ?_, fun _ _ _ _ => rfl, rfl⟩
  simp [execute_opcode, and_255, hp]

/-- Concrete instance: `00E0` at `0x200`. -/
theorem c22_clear_witness :
    at_pc (machine 0x00E0 regs_12) 0x00E0 ∧
    ∃ c', execute_instruction 0 (machine 0x00E0 regs_12) = some c' ∧
      (∀ x y, x < 64 → y < 32 → c'.display (y * 64 + x) = false) ∧
      c' = { machine 0x00E0 regs_12 with
        PC := (machine 0x00E0 regs_12).PC + 2, display := c'.display } :=
  ⟨by decide, c22_clear 0 (machine 0x00E0 regs_12) (by decide)⟩

/-! ## Fetch, jumps and skips -/

/-- The fetched word is big-endian when both bytes are 8-bit values. -/
theorem instr_at_eq (ram : Nat → Nat) (a : Nat) (h1 : ram a < 256) (h2 : ram (a + 1) < 256) :
    instr_at ram a = ram a * 256 + ram (a + 1) := by
  unfold instr_at
  have h := Nat.mul_add_lt_is_or (i := 8) (b := ram (a + 1)) (by norm_num; exact h2) (ram a)
  rw [Nat.shiftLeft_eq, Nat.mul_comm, ← h]
  norm_num
  omega

/-- Claim C24: for every machine state with `PC <= 0xFFE` (bytes and `V0`
8-bit values), `fetch_instruction` returns `ram[PC]*256 + ram[PC+1]` and
advances `PC` by 2 before the opcode's effect is applied, so that after `1NNN`
`PC` is exactly `NNN` and after `BNNN` `PC` is exactly `NNN + V0`, independent
of the address the instruction was fetched from. -/
theorem c24_fetch (rnd : Nat) (c : chip8_t) (hPC : c.PC ≤ 0xFFE)
    (h1 : c.ram c.PC < 256) (h2 : c.ram (c.PC + 1) < 256) (h0 : c.V 0 < 256) :
    fetch_instruction c =
      some (c.ram c.PC * 256 + c.ram (c.PC + 1), { c with PC := c.PC + 2 }) ∧
    (∀ NNN, NNN < 4096 → c.ram c.PC * 256 + c.ram (c.PC + 1) = 0x1000 + NNN →
      execute_instruction rnd c = some { c with PC := NNN }) ∧
    (∀ NNN, NNN < 4096 → c.ram c.PC * 256 + c.ram (c.PC + 1) = 0xB000 + NNN →
      execute_instruction rnd c = some { c with PC := NNN + c.V 0 }) := by
  have hp : (c.PC + 2) % 65536 = c.PC + 2 := Nat.mod_eq_of_lt (by omega)
  have hi := instr_at_eq c.ram c.PC h1 h2
  refine ⟨?_, fun NNN hN he => ?_, fun NNN hN he => ?_⟩
  · simp [fetch_instruction, hi, hp]
    omega
  · have hpc : at_pc c (0x1000 + NNN) := ⟨by omega, by rw [hi, he]⟩
    obtain ⟨d1, d2⟩ := decode_nnn 1 NNN hN
    rw [execute_instruction_eq rnd c _ hpc]
    simp [execute_opcode, d1, d2]
  · have hpc : at_pc c (0xB000 + NNN) := ⟨by omega, by rw [hi, he]⟩
    obtain ⟨d1, d2⟩ := decode_nnn 11 NNN hN
    have hb : (c.V 0 + NNN) % 65536 = NNN + c.V 0 := by omega
    rw [execute_instruction_eq rnd c _ hpc]
    simp [execute_opcode, d1, d2, hb]

/-- Concrete instance: `1234` at `0x200`. -/
theorem c24_fetch_witness :
    ((machine 0x1234 regs_12).PC ≤ 0xFFE ∧
      (machine 0x1234 regs_12).ram (machine 0x1234 regs_12).PC < 256 ∧
      (machine 0x1234 regs_12).ram ((machine 0x1234 regs_12).PC + 1) < 256 ∧
      (machine 0x1234 regs_12).V 0 < 256) ∧
    (fetch_instruction (machine 0x1234 regs_12) =
      some ((machine 0x1234 regs_12).ram (machine 0x1234 regs_12).PC * 256 +
          (machine 0x1234 regs_12).ram ((machine 0x1234 regs_12).PC + 1),
        { machine 0x1234 regs_12 with PC := (machine 0x1234 regs_12).PC + 2 }) ∧
    (∀ NNN, NNN < 4096 →
      (machine 0x1234 regs_12).ram (machine 0x1234 regs_12).PC * 256 +
        (machine 0x1234 regs_12).ram ((machine 0x1234 regs_12).PC + 1) = 0x1000 + NNN →
      execute_instruction 0 (machine 0x1234 regs_12) =
        some { machine 0x1234 regs_12 with PC := NNN }) ∧
    (∀ NNN, NNN < 4096 →
      (machine 0x1234 regs_12).ram (machine 0x1234 regs_12).PC * 256 +
        (machine 0x1234 regs_12).ram ((machine 0x1234 regs_12).PC + 1) = 0xB000 + NNN →
      execute_instruction 0 (machine 0x1234 regs_12) =
        some { machine 0x1234 regs_12 with PC := NNN + (machine 0x1234 regs_12).V 0 })) :=
  ⟨by decide, c24_fetch 0 (machine 0x1234 regs_12) (by decide) (by decide) (by decide)
    (by decide)⟩

theorem decode_y (g X Y NN : Nat) (hY : Y < 16) (h : NN = Y * 16) :
    ((g * 4096 + X * 256 + NN) >>> 4) &&& 15 = Y := by
  simp only [and_15, Nat.shiftRight_eq_div_pow]
  omega

/-- The state left by a skip opcode. -/
theorem skip_result (rnd : Nat) (c : chip8_t) (X Y NN g : Nat)
    (hX : X < 16) (hY : Y < 16) (hNN : NN < 256)
    (hg : g = 3 ∨ g = 4 ∨ ((g = 5 ∨ g = 9) ∧ NN = Y * 16))
    (hpc : at_pc c (g * 4096 + X * 256 + NN)) :
    ∃ c', execute_instruction rnd c = some c' ∧ c' = { c with PC := c'.PC } ∧
      (g = 3 → c'.PC = if c.V X = NN then c.PC + 4 else c.PC + 2) ∧
      (g = 4 → c'.PC = if c.V X ≠ NN then c.PC + 4 else c.PC + 2) ∧
      (g = 5 → c'.PC = if c.V X = c.V Y then c.PC + 4 else c.PC + 2) ∧
      (g = 9 → c'.PC = if c.V X ≠ c.V Y then c.PC + 4 else c.PC + 2) := by
  obtain ⟨d1, d2, d3⟩ := decode_xnn g X NN hX hNN
  have hp : (c.PC + 2) % 65536 = c.PC + 2 := Nat.mod_eq_of_lt (by have := hpc.1; omega)
  have hp4 : (c.PC + 2 + 2) % 65536 = c.PC + 4 := by have := hpc.1; omega
  rw [execute_instruction_eq rnd c _ hpc]
  rcases hg with rfl | rfl | ⟨rfl | rfl, hNNY⟩
  · by_cases hc : c.V X = NN
    · exact ⟨{ c with PC := c.PC + 4 }, by simp [execute_opcode, d1, d2, d3, hp, hp4, hc],
        rfl, by simp [hc]⟩
    · exact ⟨{ c with PC := c.PC + 2 }, by simp [execute_opcode, d1, d2, d3, hp, hp4, hc],
        rfl, by simp [hc]⟩
  · by_cases hc : c.V X = NN
    · exact ⟨{ c with PC := c.PC + 2 }, by simp [execute_opcode, d1, d2, d3, hp, hp4, hc],
        rfl, by simp [hc]⟩
    · exact ⟨{ c with PC := c.PC + 4 }, by simp [execute_opcode, d1, d2, d3, hp, hp4, hc],
        rfl, by simp [hc]⟩
  · have d4 := decode_y 5 X Y NN hY hNNY
    by_cases hc : c.V X = c.V Y
    · exact ⟨{ c with PC := c.PC + 4 }, by simp [execute_opcode, d1, d2, d4, hp, hp4, hc],
        rfl, by simp [hc]⟩
    · exact ⟨{ c with PC := c.PC + 2 }, by simp [execute_opcode, d1, d2, d4, hp, hp4, hc],
        rfl, by simp [hc]⟩
  · have d4 := decode_y 9 X Y NN hY hNNY
    by_cases hc : c.V X = c.V Y
    · exact ⟨{ c with PC := c.PC + 2 }, by simp [execute_opcode, d1, d2, d4, hp, hp4, hc],
        rfl, by simp [hc]⟩
    · exact ⟨{ c with PC := c.PC + 4 }, by simp [execute_opcode, d1, d2, d4, hp, hp4, hc],
        rfl, by simp [hc]⟩

/-- Claim C25: for every machine state with the instruction at address `p`:
after `3XNN` `PC = p + 4` if `Vx = NN` and `p + 2` otherwise; after `4XNN`
`PC = p + 4` if `Vx != NN` and `p + 2` otherwise; after `5XY0` `PC = p + 4` if
`Vx = Vy` and `p + 2` otherwise; after `9XY0` `PC = p + 4` if `Vx != Vy` and
`p + 2` otherwise; none of them changes a field other than `PC`, and of two
machines with the same `PC`, `Vx`, `Vy` running `3XNN` and `4XNN` (or `5XY0`
and `9XY0`) exactly one skips.  The tag `g` is the top nibble, and `NN = Y * 16`
for `5XY0` and `9XY0`. -/
theorem c25_skips (rnd : Nat) (c : chip8_t) (X Y NN g : Nat)
    (hX : X < 16) (hY : Y < 16) (hNN : NN < 256)
    (hg : g = 3 ∨ g = 4 ∨ ((g = 5 ∨ g = 9) ∧ NN = Y * 16))
    (hpc : at_pc c (g * 4096 + X * 256 + NN)) :
    ∃ c', execute_instruction rnd c = some c' ∧ c' = { c with PC := c'.PC } ∧
      (g = 3 → c'.PC = if c.V X = NN then c.PC + 4 else c.PC + 2) ∧
      (g = 4 → c'.PC = if c.V X ≠ NN then c.PC + 4 else c.PC + 2) ∧
      (g = 5 → c'.PC = if c.V X = c.V Y then c.PC + 4 else c.PC + 2) ∧
      (g = 9 → c'.PC = if c.V X ≠ c.V Y then c.PC + 4 else c.PC + 2) ∧
      (∀ (rnd2 g2 : Nat) (d : chip8_t),
        ((g = 3 ∧ g2 = 4) ∨ (g = 4 ∧ g2 = 3) ∨ (g = 5 ∧ g2 = 9) ∨ (g = 9 ∧ g2 = 5)) →
        at_pc d (g2 * 4096 + X * 256 + NN) → d.PC = c.PC → d.V X = c.V X → d.V Y = c.V Y →
        ∃ d', execute_instruction rnd2 d = some d' ∧
          ((c'.PC = c.PC + 4 ∧ d'.PC = c.PC + 2) ∨ (c'.PC = c.PC + 2 ∧ d'.PC = c.PC + 4))) := by
  obtain ⟨c', h, e, s3, s4, s5, s9⟩ := skip_result rnd c X Y NN g hX hY hNN hg hpc
  refine ⟨c', h, e, s3, s4, s5, s9, fun rnd2 g2 d hpart hpcd hPC hVX hVY => ?_⟩
  have hg2 : g2 = 3 ∨ g2 = 4 ∨ ((g2 = 5 ∨ g2 = 9) ∧ NN = Y * 16) := by
    rcases hpart with ⟨h1, rfl⟩ | ⟨h1, rfl⟩ | ⟨h1, rfl⟩ | ⟨h1, rfl⟩
    · exact Or.inr (Or.inl rfl)
    · exact Or.inl rfl
    · exact Or.inr (Or.inr ⟨Or.inr rfl, by omega⟩)
    · exact Or.inr (Or.inr ⟨Or.inl rfl, by omega⟩)
  obtain ⟨d', hd, -, t3, t4, t5, t9⟩ := skip_result rnd2 d X Y NN g2 hX hY hNN hg2 hpcd
  refine ⟨d', hd, ?_⟩
  simp only [hPC, hVX, hVY] at t3 t4 t5 t9
  rcases hpart with ⟨rfl, rfl⟩ | ⟨rfl, rfl⟩ | ⟨rfl, rfl⟩ | ⟨rfl, rfl⟩
  · have a := s3 rfl; have b := t4 rfl
    by_cases hc : c.V X = NN <;> simp [hc] at a b <;> omega
  · have a := s4 rfl; have b := t3 rfl
    by_cases hc : c.V X = NN <;> simp [hc] at a b <;> omega
  · have a := s5 rfl; have b := t9 rfl
    by_cases hc : c.V X = c.V Y <;> simp [hc] at a b <;> omega
  · have a := s9 rfl; have b := t5 rfl
    by_cases hc : c.V X = c.V Y <;> simp [hc] at a b <;> omega

/-- Concrete instance: `3101` with `V1 = 1` skips. -/
theorem c25_skips_witness :
    (1 < 16 ∧ 0 < 16 ∧ 1 < 256 ∧ (3 = 3 ∨ 3 = 4 ∨ ((3 = 5 ∨ 3 = 9) ∧ 1 = 0 * 16)) ∧
      at_pc (machine 0x3101 regs_13) (3 * 4096 + 1 * 256 + 1)) ∧
    ∃ c', execute_instruction 0 (machine 0x3101 regs_13) = some c' ∧
      c' = { machine 0x3101 regs_13 with PC := c'.PC } ∧
      (3 = 3 → c'.PC = if (machine 0x3101 regs_13).V 1 = 1
        then (machine 0x3101 regs_13).PC + 4 else (machine 0x3101 regs_13).PC + 2) ∧
      (3 = 4 → c'.PC = if (machine 0x3101 regs_13).V 1 ≠ 1
        then (machine 0x3101 regs_13).PC + 4 else (machine 0x3101 regs_13).PC + 2) ∧
      (3 = 5 → c'.PC = if (machine 0x3101 regs_13).V 1 = (machine 0x3101 regs_13).V 0
        then (machine 0x3101 regs_13).PC + 4 else (machine 0x3101 regs_13).PC + 2) ∧
      (3 = 9 → c'.PC = if (machine 0x3101 regs_13).V 1 ≠ (machine 0x3101 regs_13).V 0
        then (machine 0x3101 regs_13).PC + 4 else (machine 0x3101 regs_13).PC + 2) ∧
      (∀ (rnd2 g2 : Nat) (d : chip8_t),
        ((3 = 3 ∧ g2 = 4) ∨ (3 = 4 ∧ g2 = 3) ∨ (3 = 5 ∧ g2 = 9) ∨ (3 = 9 ∧ g2 = 5)) →
        at_pc d (g2 * 4096 + 1 * 256 + 1) → d.PC = (machine 0x3101 regs_13).PC →
        d.V 1 = (machine 0x3101 regs_13).V 1 → d.V 0 = (machine 0x3101 regs_13).V 0 →
        ∃ d', execute_instruction rnd2 d = some d' ∧
          ((c'.PC = (machine 0x3101 regs_13).PC + 4 ∧
              d'.PC = (machine 0x3101 regs_13).PC + 2) ∨
            (c'.PC = (machine 0x3101 regs_13).PC + 2 ∧
              d'.PC = (machine 0x3101 regs_13).PC + 4))) :=
  ⟨by decide, c25_skips 0 (machine 0x3101 regs_13) 1 0 1 3 (by decide) (by decide) (by decide)
    (by decide) (by decide)⟩

theorem scan_keypad_display : ∀ (n i : Nat) (c : chip8_t),
    (scan_keypad n i c).display = c.display := by
  intro n
  induction n with
  | zero => intro i c; rfl
  | succ n ih =>
    intro i c
    rw [scan_keypad]
    by_cases hk : c.key = 0xFF
    · rw [if_pos hk]
      by_cases hp : c.keypad i = true
      · rw [if_pos hp]
      · rw [if_neg hp]; exact ih _ _
    · rw [if_neg hk]

theorem load_registers_display : ∀ (n i hex : Nat) (c c' : chip8_t),
    load_registers n i hex c = some c' → c'.display = c.display := by
  intro n
  induction n with
  | zero =>
    intro i hex c c' h
    rw [load_registers] at h
    cases h; rfl
  | succ n ih =>
    intro i hex c c' h
    rw [load_registers] at h
    by_cases hI : c.I + i < 4096
    · rw [if_pos hI] at h
      have e := ih _ _ _ _ h
      exact e
    · rw [if_neg hI] at h
      cases h

theorem store_registers_display : ∀ (n i hex : Nat) (c c' : chip8_t),
    store_registers n i hex c = some c' → c'.display = c.display := by
  intro n
  induction n with
  | zero =>
    intro i hex c c' h
    rw [store_registers] at h
    cases h; rfl
  | succ n ih =>
    intro i hex c c' h
    rw [store_registers] at h
    by_cases hI : c.I + i < 4096
    · rw [if_pos hI] at h
      have e := ih _ _ _ _ h
      exact e
    · rw [if_neg hI] at h
      cases h

/-- Every opcode other than `DXYN` and `0XE0` leaves the display as it was. -/
theorem execute_opcode_display (rnd opcode : Nat) (c : chip8_t)
    (hnd : opcode >>> 12 ≠ 0xD)
    (hnc : ¬ (opcode >>> 12 = 0x0 ∧ opcode &&& 0xFF = 0xE0)) :
    ∀ c', execute_opcode rnd opcode c = some c' → c'.display = c.display := by
  unfold execute_opcode
  dsimp only
  repeat' (apply ite_frame chip8_t.display c <;> intro _)
  all_goals
    first
    | (intro c' h; cases h; rfl)
    | (intro c' h; cases h; done)
    | (intro c' h; have e := load_registers_display _ _ _ _ _ h; exact e)
    | (intro c' h; have e := store_registers_display _ _ _ _ _ h; exact e)
    | (intro c' h; cases h; exact scan_keypad_display _ _ _)
    | (exact absurd ‹opcode >>> 12 = 13› hnd)
    | (exact absurd ⟨‹opcode >>> 12 = 0›, ‹opcode &&& 255 = 224›⟩ hnc)

/-- Claim C23 as stated fails: `01E0` is neither `DXYN` nor `00E0`, yet the
dispatch decodes it as the clear opcode and a lit pixel goes dark. -/
theorem c23_counterexample :
    0x01E0 ≠ 0x00E0 ∧ 0x01E0 >>> 12 ≠ 0xD ∧ at_pc lit_machine 0x01E0 ∧
    lit_machine.display 0 = true ∧
    (execute_instruction 0 lit_machine).map (fun c => c.display 0) = some false := by
  decide

/-- Claim C23 (amended): the display is mutated only by the draw and clear
opcodes, the clear opcode being every word `0XE0`: for every machine state
whose array accesses stay in range and every opcode that is neither `DXYN`
nor `0XE0`, the display after `execute_instruction` equals the display before
it. -/
theorem c23_display_frame (rnd : Nat) (c c' : chip8_t) (opcode : Nat)
    (hpc : at_pc c opcode)
    (hnd : opcode >>> 12 ≠ 0xD)
    (hnc : ¬ (opcode >>> 12 = 0x0 ∧ opcode &&& 0xFF = 0xE0))
    (hex : execute_instruction rnd c = some c') :
    c'.display = c.display := by
  rw [execute_instruction_eq rnd c _ hpc] at hex
  have e := execute_opcode_display rnd opcode _ hnd hnc c' hex
  exact e

/-- Concrete instance: `F355` on `memory_machine`. -/
theorem c23_display_frame_witness :
    (at_pc memory_machine 0xF355 ∧ 0xF355 >>> 12 ≠ 0xD ∧
      ¬ (0xF355 >>> 12 = 0x0 ∧ 0xF355 &&& 0xFF = 0xE0) ∧
      execute_instruction 0 memory_machine = some memory_machine_1) ∧
    memory_machine_1.display = memory_machine.display :=
  ⟨⟨by decide, by decide, by decide, rfl⟩,
    c23_display_frame 0 memory_machine memory_machine_1 0xF355 (by decide) (by decide)
      (by decide) rfl⟩

/-! ## The initialized machine -/

theorem holds_font_copy (ram : Nat → Nat) (src : List Nat) :
    holds_font (copy_bytes (copy_bytes ram 0 font) 0x200 src) := by
  intro a ha
  have hl : font.length = 80 := rfl
  simp only [copy_bytes, hl]
  rw [if_neg (by omega), if_pos (by omega)]
  rfl

/-- Claim C26: after successful initialization of a zeroed machine with a ROM
image `r` of length `n <= 3584`, `PC = 0x200`, `ram[0x200 + i] = r[i]` for every
`i < n`, `ram[0x000..0x04F]` holds the font table, and every other `ram` byte,
every register, `I`, both timers, the stack size, the display and the keypad
are zero/false. -/
theorem c26_initial_state (f : rom_file)
    (hread : f.contents.length = f.rom_size) (hsize : f.rom_size ≤ 3584) :
    (initialize_chip8 chip8_zero (some f)).1 = true ∧
    (initialize_chip8 chip8_zero (some f)).2.PC = 0x200 ∧
    (∀ i, i < f.rom_size →
      (initialize_chip8 chip8_zero (some f)).2.ram (0x200 + i) = f.contents.getD i 0) ∧
    holds_font (initialize_chip8 chip8_zero (some f)).2.ram ∧
    (∀ a, 0x50 ≤ a → (a < 0x200 ∨ 0x200 + f.rom_size ≤ a) →
      (initialize_chip8 chip8_zero (some f)).2.ram a = 0) ∧
    (∀ i, (initialize_chip8 chip8_zero (some f)).2.V i = 0) ∧
    (initialize_chip8 chip8_zero (some f)).2.I = 0 ∧
    (initialize_chip8 chip8_zero (some f)).2.delay_timer = 0 ∧
    (initialize_chip8 chip8_zero (some f)).2.sound_timer = 0 ∧
    (initialize_chip8 chip8_zero (some f)).2.stack_size = 0 ∧
    (∀ p, (initialize_chip8 chip8_zero (some f)).2.display p = false) ∧
    (∀ i, (initialize_chip8 chip8_zero (some f)).2.keypad i = false) := by
  have htake : f.contents.take f.rom_size = f.contents := by
    rw [← hread]; exact List.take_length f.contents
  have hs : ¬ f.rom_size > 3584 := by omega
  have hinit : initialize_chip8 chip8_zero (some f) =
      (true, { chip8_zero with
        state := emu_state.RUNNING, volume := 1500, PC := 0x200,
        ram := copy_bytes (copy_bytes chip8_zero.ram 0 font) 0x200 f.contents }) := by
    simp [initialize_chip8, hs, htake, hread]
  rw [hinit]
  have hl : font.length = 80 := rfl
  refine ⟨rfl, rfl, fun i hi => ?_, holds_font_copy _ _, fun a h1 h2 => ?_, fun _ => rfl, rfl,
    rfl, rfl, rfl, fun _ => rfl, fun _ => rfl⟩
  · simp only [copy_bytes, hl]
    rw [if_pos (by omega), Nat.add_sub_cancel_left]
  · simp only [copy_bytes, hl]
    rw [if_neg (by omega), if_neg (by omega)]
    rfl

/-- Concrete instance: the two-byte image `F1 29`. -/
theorem c26_initial_state_witness :
    ((rom_file.mk 2 [0xF1, 0x29]).contents.length = (rom_file.mk 2 [0xF1, 0x29]).rom_size ∧
      (rom_file.mk 2 [0xF1, 0x29]).rom_size ≤ 3584) ∧
    (initialize_chip8 chip8_zero (some (rom_file.mk 2 [0xF1, 0x29]))).1 = true ∧
    (initialize_chip8 chip8_zero (some (rom_file.mk 2 [0xF1, 0x29]))).2.PC = 0x200 ∧
    (initialize_chip8 chip8_zero (some (rom_file.mk 2 [0xF1, 0x29]))).2.ram 0x200 = 0xF1 ∧
    (initialize_chip8 chip8_zero (some (rom_file.mk 2 [0xF1, 0x29]))).2.ram 0x201 = 0x29 :=
  ⟨by decide,
    (c26_initial_state (rom_file.mk 2 [0xF1, 0x29]) (by decide) (by decide)).1,
    (c26_initial_state (rom_file.mk 2 [0xF1, 0x29]) (by decide) (by decide)).2.1,
    (c26_initial_state (rom_file.mk 2 [0xF1, 0x29]) (by decide) (by decide)).2.2.1 0
      (by decide),
    (c26_initial_state (rom_file.mk 2 [0xF1, 0x29]) (by decide) (by decide)).2.2.1 1
      (by decide)⟩

/-- Claim C27: on a machine whose `ram` holds the font table (as the freshly
initialized machine does), `FX29` sets `I = Vx * 5` for every `Vx` in `0..255`
(no 8-bit truncation); for every hex digit `d = Vx` in `0..15`, `I + 4 <= 0x04F`
and the five bytes `ram[I..I+4]` are the font glyph rows of digit `d`. -/
theorem c27_glyph (rnd : Nat) (c : chip8_t) (X : Nat)
    (hX : X < 16) (hV : c.V X < 256) (hfont : holds_font c.ram)
    (hpc : at_pc c (0xF000 + X * 256 + 0x29)) :
    ∃ c', execute_instruction rnd c = some c' ∧ c'.I = c.V X * 5 ∧
      (c.V X < 16 → c'.I + 4 ≤ 0x04F ∧
        ∀ k, k < 5 → c'.ram (c'.I + k) = font.getD (5 * c.V X + k) 0) := by
  obtain ⟨d1, d2, d3⟩ := decode_xnn 15 X 0x29 hX (by norm_num)
  have hm : c.V X * 5 % 65536 = c.V X * 5 := Nat.mod_eq_of_lt (by omega)
  rw [execute_instruction_eq rnd c _ hpc]
  refine ⟨{ c with PC := (c.PC + 2) % 65536, I := c.V X * 5 }, ?_, rfl, fun hd => ⟨?_, ?_⟩⟩
  · simp [execute_opcode, d1, d2, d3, hm]
  · show c.V X * 5 + 4 ≤ 0x04F
    omega
  · intro k hk
    show c.ram (c.V X * 5 + k) = _
    rw [hfont _ (by omega)]
    congr 1
    omega

set_option maxRecDepth 8000 in
/-- Concrete instance: `F129` with `V1 = 0xA` on the initialized machine. -/
theorem c27_glyph_witness :
    (1 < 16 ∧ glyph_machine.V 1 < 256 ∧ holds_font glyph_machine.ram ∧
      at_pc glyph_machine (0xF000 + 1 * 256 + 0x29)) ∧
    ∃ c', execute_instruction 0 glyph_machine = some c' ∧ c'.I = glyph_machine.V 1 * 5 ∧
      (glyph_machine.V 1 < 16 → c'.I + 4 ≤ 0x04F ∧
        ∀ k, k < 5 → c'.ram (c'.I + k) = font.getD (5 * glyph_machine.V 1 + k) 0) :=
  ⟨by decide, c27_glyph 0 glyph_machine 1 (by decide) (by decide) (by decide) (by decide)⟩

/-! ## Frame of the memory transfers -/

/-- Claim C29: for every machine state whose accesses stay in range and every
`X`, the memory-transfer opcodes `FX33`, `FX55` and `FX65` leave the index
register `I` unchanged, `FX55` and `FX33` change no register, and `FX55`
changes no `ram` byte outside `I..I+X`. -/
theorem c29_index_kept (rnd : Nat) (c : chip8_t) (X NN : Nat)
    (hX : X < 16) (hNN : NN = 0x33 ∨ NN = 0x55 ∨ NN = 0x65)
    (hI : (NN = 0x33 → c.I + 2 ≤ 4095) ∧ (NN ≠ 0x33 → c.I + X ≤ 4095))
    (hpc : at_pc c (0xF000 + X * 256 + NN)) :
    ∃ c', execute_instruction rnd c = some c' ∧ c'.I = c.I ∧
      (NN ≠ 0x65 → c'.V = c.V) ∧
      (NN = 0x55 → ∀ a, (a < c.I ∨ c.I + X < a) → c'.ram a = c.ram a) := by
  have hNN' : NN < 256 := by omega
  obtain ⟨d1, d2, d3⟩ := decode_xnn 15 X NN hX hNN'
  rw [execute_instruction_eq rnd c _ hpc]
  rcases hNN with rfl | rfl | rfl
  · have h2 : c.I + 2 < 4096 := by have := hI.1 rfl; omega
    refine ⟨{ c with
      PC := (c.PC + 2) % 65536
      ram := store (store (store c.ram (c.I + 2) (c.V X % 10)) (c.I + 1) (c.V X / 10 % 10))
        c.I (c.V X / 10 / 10 % 10) }, by simp [execute_opcode, d1, d2, d3, h2], rfl,
      fun _ => rfl, fun h => ?_⟩
    simp at h
  · obtain ⟨c', e1, e2, e3, e4⟩ :=
      store_registers_spec (X + 1) 0 0 { c with PC := (c.PC + 2) % 65536 }
        (by have := hI.2 (by norm_num); simpa using by omega)
    refine ⟨c', by simpa [execute_opcode, d1, d2, d3] using e1, e3, fun _ => e2, fun _ a ha => ?_⟩
    rw [e4 a, if_neg (by simp; omega)]
  · obtain ⟨c', e1, e2, e3, e4⟩ :=
      load_registers_spec (X + 1) 0 0 { c with PC := (c.PC + 2) % 65536 }
        (by have := hI.2 (by norm_num); simpa using by omega)
    refine ⟨c', by simpa [execute_opcode, d1, d2, d3] using e1, e3, fun h => ?_, fun h => ?_⟩
    · simp at h
    · simp at h

/-- Concrete instance: `F255` with `I = 0x300`. -/
theorem c29_index_kept_witness :
    (2 < 16 ∧ (0x55 = 0x33 ∨ 0x55 = 0x55 ∨ 0x55 = 0x65) ∧
      ((0x55 = 0x33 → store_machine.I + 2 ≤ 4095) ∧
        (0x55 ≠ 0x33 → store_machine.I + 2 ≤ 4095)) ∧
      at_pc store_machine (0xF000 + 2 * 256 + 0x55)) ∧
    ∃ c', execute_instruction 0 store_machine = some c' ∧ c'.I = store_machine.I ∧
      (0x55 ≠ 0x65 → c'.V = store_machine.V) ∧
      (0x55 = 0x55 → ∀ a, (a < store_machine.I ∨ store_machine.I + 2 < a) →
        c'.ram a = store_machine.ram a) :=
  ⟨by decide, c29_index_kept 0 store_machine 2 0x55 (by decide) (by decide) (by decide)
    (by decide)⟩

/-! ## Audio signal of the tick -/

/-- Claim C28 as stated fails: a tick that finds `sound_timer = 1` leaves
`sound_timer = 0` and un-pauses the audio device. -/
theorem c28_counterexample :
    ({ machine 0 regs_12 with sound_timer := 1 } : chip8_t).sound_timer = 1 ∧
    (update_timers { machine 0 regs_12 with sound_timer := 1 }).1.sound_timer = 0 ∧
    (update_timers { machine 0 regs_12 with sound_timer := 1 }).2 = false := by
  decide

/-- Claim C28 (amended): after every call of `update_timers`, the audio device
is playing (un-paused) if and only if `sound_timer > 0` held in the state the
tick started from, and is paused otherwise; in particular it is playing
whenever `sound_timer > 0` holds in the state the tick leaves behind. -/
theorem c28_audio (c : chip8_t) :
    ((update_timers c).2 = false ↔ c.sound_timer > 0) ∧
    ((update_timers c).2 = true ↔ c.sound_timer = 0) ∧
    ((update_timers c).1.sound_timer > 0 → (update_timers c).2 = false) := by
  unfold update_timers
  by_cases hd : c.delay_timer > 0 <;> by_cases hs : c.sound_timer > 0 <;>
    simp [hd, hs] <;> omega

end Chip8
